import Mathlib

set_option maxRecDepth 8000000

set_option maxHeartbeats 2000000

/-!
Shallow embedding of the trustdidweb-py repository (src/python/manage.py and
src/did_history/loader.py) for checking its natural-language specification.

Modelling conventions:
- JSON values are the inductive `Json`; numbers are modelled as integers
  (all numbers occurring in the log format are integers).
- Python dicts are association lists; `json.loads` never produces duplicate
  keys, so the embeddings treat keys as unique.
- Log lines are given to the loaders already parsed (the `json.loads` text
  layer and blank-line skipping are outside the model).
- The jsoncanon library (RFC 8785 JCS) is modelled by `canonicalize`:
  objects are key-sorted recursively and then serialized without
  whitespace.  Key order is by code point, which matches the RFC's UTF-16
  order for all strings appearing in this development.
- sha256 is implemented concretely (FIPS 180-4), as are base32 (RFC 4648,
  with padding, as produced by Python base64.b32encode), base58btc,
  multibase ("z" prefix), multihash ("sha2-256" wrap) and the
  "ed25519-pub" multicodec.
- Ed25519 itself (aries_askar) is abstracted by the `Crypto` structure;
  every theorem about signatures is parametric in it.
-/

inductive Json where
  | null : Json
  | bool (b : Bool) : Json
  | num (n : Int) : Json
  | str (s : String) : Json
  | arr (xs : List Json) : Json
  | obj (kvs : List (String × Json)) : Json

def Json.decEq : (a b : Json) → Decidable (a = b)
  | .null, .null => isTrue rfl
  | .null, .bool _ => isFalse (fun h => Json.noConfusion h)
  | .null, .num _ => isFalse (fun h => Json.noConfusion h)
  | .null, .str _ => isFalse (fun h => Json.noConfusion h)
  | .null, .arr _ => isFalse (fun h => Json.noConfusion h)
  | .null, .obj _ => isFalse (fun h => Json.noConfusion h)
  | .bool _, .null => isFalse (fun h => Json.noConfusion h)
  | .bool a, .bool b =>
    if h : a = b then isTrue (by rw [h])
    else isFalse (fun hh => h (by injection hh))
  | .bool _, .num _ => isFalse (fun h => Json.noConfusion h)
  | .bool _, .str _ => isFalse (fun h => Json.noConfusion h)
  | .bool _, .arr _ => isFalse (fun h => Json.noConfusion h)
  | .bool _, .obj _ => isFalse (fun h => Json.noConfusion h)
  | .num _, .null => isFalse (fun h => Json.noConfusion h)
  | .num _, .bool _ => isFalse (fun h => Json.noConfusion h)
  | .num a, .num b =>
    if h : a = b then isTrue (by rw [h])
    else isFalse (fun hh => h (by injection hh))
  | .num _, .str _ => isFalse (fun h => Json.noConfusion h)
  | .num _, .arr _ => isFalse (fun h => Json.noConfusion h)
  | .num _, .obj _ => isFalse (fun h => Json.noConfusion h)
  | .str _, .null => isFalse (fun h => Json.noConfusion h)
  | .str _, .bool _ => isFalse (fun h => Json.noConfusion h)
  | .str _, .num _ => isFalse (fun h => Json.noConfusion h)
  | .str a, .str b =>
    if h : a = b then isTrue (by rw [h])
    else isFalse (fun hh => h (by injection hh))
  | .str _, .arr _ => isFalse (fun h => Json.noConfusion h)
  | .str _, .obj _ => isFalse (fun h => Json.noConfusion h)
  | .arr _, .null => isFalse (fun h => Json.noConfusion h)
  | .arr _, .bool _ => isFalse (fun h => Json.noConfusion h)
  | .arr _, .num _ => isFalse (fun h => Json.noConfusion h)
  | .arr _, .str _ => isFalse (fun h => Json.noConfusion h)
  | .arr xs, .arr ys =>
    match decList xs ys with
    | isTrue h => isTrue (by rw [h])
    | isFalse h => isFalse (fun hh => h (by injection hh))
  | .arr _, .obj _ => isFalse (fun h => Json.noConfusion h)
  | .obj _, .null => isFalse (fun h => Json.noConfusion h)
  | .obj _, .bool _ => isFalse (fun h => Json.noConfusion h)
  | .obj _, .num _ => isFalse (fun h => Json.noConfusion h)
  | .obj _, .str _ => isFalse (fun h => Json.noConfusion h)
  | .obj _, .arr _ => isFalse (fun h => Json.noConfusion h)
  | .obj xs, .obj ys =>
    match decObj xs ys with
    | isTrue h => isTrue (by rw [h])
    | isFalse h => isFalse (fun hh => h (by injection hh))
where
  decList : (xs ys : List Json) → Decidable (xs = ys)
    | [], [] => isTrue rfl
    | [], _ :: _ => isFalse (fun h => List.noConfusion h)
    | _ :: _, [] => isFalse (fun h => List.noConfusion h)
    | x :: xs, y :: ys =>
      match Json.decEq x y with
      | isTrue h1 =>
        match decList xs ys with
        | isTrue h2 => isTrue (by rw [h1, h2])
        | isFalse h2 => isFalse (fun hh => h2 (by injection hh))
      | isFalse h1 => isFalse (fun hh => h1 (by injection hh))
  decObj : (xs ys : List (String × Json)) → Decidable (xs = ys)
    | [], [] => isTrue rfl
    | [], _ :: _ => isFalse (fun h => List.noConfusion h)
    | _ :: _, [] => isFalse (fun h => List.noConfusion h)
    | (k1, v1) :: xs, (k2, v2) :: ys =>
      if hk : k1 = k2 then
        match Json.decEq v1 v2 with
        | isTrue hv =>
          match decObj xs ys with
          | isTrue h2 => isTrue (by rw [hk, hv, h2])
          | isFalse h2 => isFalse (fun hh => by
              injection hh with hh1 hh2
              exact h2 hh2)
        | isFalse hv => isFalse (fun hh => by
            injection hh with hh1 hh2
            exact hv (congrArg Prod.snd hh1))
      else isFalse (fun hh => by
        injection hh with hh1 hh2
        exact hk (congrArg Prod.fst hh1))

instance : DecidableEq Json := Json.decEq

def exceptDecEq {ε α : Type} [DecidableEq ε] [DecidableEq α] :
    (x y : Except ε α) → Decidable (x = y)
  | .error a, .error b =>
    if h : a = b then isTrue (by rw [h]) else isFalse (fun hh => h (by injection hh))
  | .ok a, .ok b =>
    if h : a = b then isTrue (by rw [h]) else isFalse (fun hh => h (by injection hh))
  | .error _, .ok _ => isFalse (fun h => Except.noConfusion h)
  | .ok _, .error _ => isFalse (fun h => Except.noConfusion h)

instance {ε α : Type} [DecidableEq ε] [DecidableEq α] : DecidableEq (Except ε α) := exceptDecEq

/-- Association-list lookup: the value of the first binding of the key. -/
def lookupKV : List (String × Json) → String → Option Json
  | [], _ => none
  | (k, v) :: rest, key => if k = key then some v else lookupKV rest key

/-- Python dict .get on a parsed JSON object (none when not an object or key absent). -/
def objGet : Json → String → Option Json
  | .obj kvs, k => lookupKV kvs k
  | _, _ => none

/-- Python del d[k]: remove the binding, or none (KeyError) when absent. -/
def removeKeyKV : List (String × Json) → String → Option (List (String × Json))
  | [], _ => none
  | (k, v) :: rest, key =>
    if k = key then some rest
    else match removeKeyKV rest key with
      | some r => some ((k, v) :: r)
      | none => none

def objDel : Json → String → Option Json
  | .obj kvs, k =>
    match removeKeyKV kvs k with
    | some r => some (.obj r)
    | none => none
  | _, _ => none

/-- Python d.pop(k): the value and the remaining object, or none (KeyError). -/
def popKeyKV : List (String × Json) → String → Option (Json × List (String × Json))
  | [], _ => none
  | (k, v) :: rest, key =>
    if k = key then some (v, rest)
    else match popKeyKV rest key with
      | some (w, r) => some (w, (k, v) :: r)
      | none => none

def objPop : Json → String → Option (Json × Json)
  | .obj kvs, k =>
    match popKeyKV kvs k with
    | some (v, r) => some (v, .obj r)
    | none => none
  | _, _ => none

/-- Python dict assignment d[k] = v: overwrite in place, else append. -/
def setKeyKV : List (String × Json) → String → Json → List (String × Json)
  | [], key, v => [(key, v)]
  | (k, w) :: rest, key, v =>
    if k = key then (k, v) :: rest else (k, w) :: setKeyKV rest key v

def objSet : Json → String → Json → Option Json
  | .obj kvs, k, v => some (.obj (setKeyKV kvs k v))
  | _, _, _ => none

-- ## String utilities (over the character lists backing String)

def strLtChars : List Char → List Char → Bool
  | [], [] => false
  | [], _ :: _ => true
  | _ :: _, [] => false
  | a :: as, b :: bs =>
    if a.toNat < b.toNat then true
    else if b.toNat < a.toNat then false
    else strLtChars as bs

def strLt (a b : String) : Bool := strLtChars a.data b.data

def splitOnChar (sep : Char) (s : String) : List String := go s.data []
where
  go : List Char → List Char → List String
    | [], acc => [String.mk acc.reverse]
    | c :: cs, acc =>
      if c = sep then String.mk acc.reverse :: go cs [] else go cs (c :: acc)

def sJoin (sep : String) : List String → String
  | [] => ""
  | [x] => x
  | x :: xs => x ++ sep ++ sJoin sep xs

/-- Whether pat is an initial segment of s (char lists). -/
def listLeads : List Char → List Char → Bool
  | [], _ => true
  | _ :: _, [] => false
  | p :: ps, c :: cs => p = c && listLeads ps cs

/-- Python s.startswith(pat). -/
def strBegins (pat s : String) : Bool := listLeads pat.data s.data

/-- Python s.replace(pat, rep): leftmost non-overlapping occurrences. -/
def replChars (pat rep : List Char) (s : List Char) : List Char := go s.length s
where
  go : Nat → List Char → List Char
    | _, [] => []
    | 0, cs => cs
    | fuel + 1, c :: cs =>
      if pat ≠ [] && listLeads pat (c :: cs) then
        rep ++ go fuel (List.drop pat.length (c :: cs))
      else c :: go fuel cs

def sReplace (s pat rep : String) : String :=
  if pat = "" then s else String.mk (replChars pat.data rep.data s.data)

def asciiChars : List Char → Bool
  | [] => true
  | c :: cs => c.toNat < 128 && asciiChars cs

def asciiOnly (s : String) : Bool := asciiChars s.data

def isDigitChar (c : Char) : Bool := 48 ≤ c.toNat && c.toNat ≤ 57

def toLowerChar (c : Char) : Char :=
  if 65 ≤ c.toNat && c.toNat ≤ 90 then Char.ofNat (c.toNat + 32) else c

def mapLower : List Char → List Char
  | [] => []
  | c :: cs => toLowerChar c :: mapLower cs

/-- UTF-8 encoding of one character. -/
def utf8Char (c : Char) : List Nat :=
  let n := c.toNat
  if n < 128 then [n]
  else if n < 2048 then [192 + n / 64, 128 + n % 64]
  else if n < 65536 then [224 + n / 4096, 128 + n / 64 % 64, 128 + n % 64]
  else [240 + n / 262144, 128 + n / 4096 % 64, 128 + n / 64 % 64, 128 + n % 64]

def utf8Chars : List Char → List Nat
  | [] => []
  | c :: cs => utf8Char c ++ utf8Chars cs

def utf8Bytes (s : String) : List Nat := utf8Chars s.data

-- ## JCS canonicalization (jsoncanon.canonicalize)

/-- Replacement of every string value and object key: models
json.loads(json.dumps(document).replace(old, new)) for documents whose
strings need no JSON escaping of the pattern (all documents in scope). -/
def jsonStrReplace (old new : String) : Json → Json
  | .null => .null
  | .bool b => .bool b
  | .num n => .num n
  | .str s => .str (sReplace s old new)
  | .arr xs => .arr (goArr xs)
  | .obj kvs => .obj (goObj kvs)
where
  goArr : List Json → List Json
    | [] => []
    | x :: xs => jsonStrReplace old new x :: goArr xs
  goObj : List (String × Json) → List (String × Json)
    | [] => []
    | (k, v) :: kvs => (sReplace k old new, jsonStrReplace old new v) :: goObj kvs

def insertPair (kv : String × Json) : List (String × Json) → List (String × Json)
  | [] => [kv]
  | x :: xs => if strLt kv.1 x.1 then kv :: x :: xs else x :: insertPair kv xs

def sortPairs : List (String × Json) → List (String × Json)
  | [] => []
  | x :: xs => insertPair x (sortPairs xs)

/-- Recursively sort every object's keys (first phase of JCS). -/
def sortJson : Json → Json
  | .null => .null
  | .bool b => .bool b
  | .num n => .num n
  | .str s => .str s
  | .arr xs => .arr (goArr xs)
  | .obj kvs => .obj (sortPairs (goObj kvs))
where
  goArr : List Json → List Json
    | [] => []
    | x :: xs => sortJson x :: goArr xs
  goObj : List (String × Json) → List (String × Json)
    | [] => []
    | (k, v) :: kvs => (k, sortJson v) :: goObj kvs

def hexDigit (n : Nat) : Char :=
  if n < 10 then Char.ofNat (48 + n) else Char.ofNat (87 + n)

/-- RFC 8785 string escaping: the two mandatory escapes, the short control
escapes, and \u00xx for the remaining control characters. -/
def escChar (c : Char) : List Char :=
  if c.toNat = 34 then [Char.ofNat 92, Char.ofNat 34]
  else if c.toNat = 92 then [Char.ofNat 92, Char.ofNat 92]
  else if c.toNat = 8 then [Char.ofNat 92, Char.ofNat 98]
  else if c.toNat = 9 then [Char.ofNat 92, Char.ofNat 116]
  else if c.toNat = 10 then [Char.ofNat 92, Char.ofNat 110]
  else if c.toNat = 12 then [Char.ofNat 92, Char.ofNat 102]
  else if c.toNat = 13 then [Char.ofNat 92, Char.ofNat 114]
  else if c.toNat < 32 then
    [Char.ofNat 92, Char.ofNat 117, Char.ofNat 48, Char.ofNat 48,
     hexDigit (c.toNat / 16), hexDigit (c.toNat % 16)]
  else [c]

def escChars : List Char → List Char
  | [] => []
  | c :: cs => escChar c ++ escChars cs

def quoteStr (s : String) : String :=
  String.mk (Char.ofNat 34 :: (escChars s.data ++ [Char.ofNat 34]))

def natStrGo : Nat → Nat → List Char → List Char
  | 0, _, acc => acc
  | fuel + 1, n, acc =>
    if n = 0 then acc else natStrGo fuel (n / 10) (Char.ofNat (48 + n % 10) :: acc)

def natStr (n : Nat) : String := if n = 0 then "0" else String.mk (natStrGo n n [])

def intStr : Int → String
  | .ofNat n => natStr n
  | .negSucc n => "-" ++ natStr (n + 1)

/-- Serialization of a key-sorted value (second phase of JCS). -/
def serializeJson : Json → String
  | .null => "null"
  | .bool b => if b then "true" else "false"
  | .num n => intStr n
  | .str s => quoteStr s
  | .arr xs => "[" ++ goArr xs ++ "]"
  | .obj kvs => "\x7b" ++ goObj kvs ++ "\x7d"
where
  goArr : List Json → String
    | [] => ""
    | [x] => serializeJson x
    | x :: xs => serializeJson x ++ "," ++ goArr xs
  goObj : List (String × Json) → String
    | [] => ""
    | [(k, v)] => quoteStr k ++ ":" ++ serializeJson v
    | (k, v) :: kvs => quoteStr k ++ ":" ++ serializeJson v ++ "," ++ goObj kvs

/-- jsoncanon.canonicalize, as a string (its UTF-8 bytes are canonBytes). -/
def canonicalize (j : Json) : String := serializeJson (sortJson j)

def canonBytes (j : Json) : List Nat := utf8Bytes (canonicalize j)

-- ## SHA-256 (hashlib.sha256, FIPS 180-4), over byte lists

def M32 : Nat := 4294967296

def add32 (a b : Nat) : Nat := (a + b) % M32

def rotr32 (x n : Nat) : Nat := ((x >>> n) ||| (x <<< (32 - n))) % M32

def xor3 (a b c : Nat) : Nat := (a ^^^ b) ^^^ c

def shaK : List Nat :=
  [1116352408, 1899447441, 3049323471, 3921009573, 961987163, 1508970993,
   2453635748, 2870763221, 3624381080, 310598401, 607225278, 1426881987,
   1925078388, 2162078206, 2614888103, 3248222580, 3835390401, 4022224774,
   264347078, 604807628, 770255983, 1249150122, 1555081692, 1996064986,
   2554220882, 2821834349, 2952996808, 3210313671, 3336571891, 3584528711,
   113926993, 338241895, 666307205, 773529912, 1294757372, 1396182291,
   1695183700, 1986661051, 2177026350, 2456956037, 2730485921, 2820302411,
   3259730800, 3345764771, 3516065817, 3600352804, 4094571909, 275423344,
   430227734, 506948616, 659060556, 883997877, 958139571, 1322822218,
   1537002063, 1747873779, 1955562222, 2024104815, 2227730452, 2361852424,
   2428436474, 2756734187, 3204031479, 3329325298]

structure Sha8 where
  a : Nat
  b : Nat
  c : Nat
  d : Nat
  e : Nat
  f : Nat
  g : Nat
  h : Nat

def shaInitState : Sha8 :=
  ⟨1779033703, 3144134277, 1013904242, 2773480762,
   1359893119, 2600822924, 528734635, 1541459225⟩

def smallSigma0 (x : Nat) : Nat := xor3 (rotr32 x 7) (rotr32 x 18) (x >>> 3)
def smallSigma1 (x : Nat) : Nat := xor3 (rotr32 x 17) (rotr32 x 19) (x >>> 10)
def bigSigma0 (x : Nat) : Nat := xor3 (rotr32 x 2) (rotr32 x 13) (rotr32 x 22)
def bigSigma1 (x : Nat) : Nat := xor3 (rotr32 x 6) (rotr32 x 11) (rotr32 x 25)
def chB (x y z : Nat) : Nat := (x &&& y) ^^^ ((x ^^^ (M32 - 1)) &&& z)
def majB (x y z : Nat) : Nat := ((x &&& y) ^^^ (x &&& z)) ^^^ (y &&& z)

def msgSchedule (w16 : List Nat) : List Nat := (schedGo 48 w16.reverse).reverse
where
  schedGo : Nat → List Nat → List Nat
    | 0, rev => rev
    | n + 1, rev =>
      let w2 := rev.getD 1 0
      let w7 := rev.getD 6 0
      let w15 := rev.getD 14 0
      let w16v := rev.getD 15 0
      schedGo n (add32 (add32 (smallSigma1 w2) w7) (add32 (smallSigma0 w15) w16v) :: rev)

def shaRound (st : Sha8) (kw : Nat × Nat) : Sha8 :=
  let t1 := add32 (add32 (add32 st.h (bigSigma1 st.e)) (add32 (chB st.e st.f st.g) kw.1)) kw.2
  let t2 := add32 (bigSigma0 st.a) (majB st.a st.b st.c)
  ⟨add32 t1 t2, st.a, st.b, st.c, add32 st.d t1, st.e, st.f, st.g⟩

def shaCompress (hs : Sha8) (block : List Nat) : Sha8 :=
  let w := msgSchedule block
  let st := (shaK.zip w).foldl shaRound hs
  ⟨add32 hs.a st.a, add32 hs.b st.b, add32 hs.c st.c, add32 hs.d st.d,
   add32 hs.e st.e, add32 hs.f st.f, add32 hs.g st.g, add32 hs.h st.h⟩

def bytesToWords : List Nat → List Nat
  | b0 :: b1 :: b2 :: b3 :: rest => (((b0 * 256 + b1) * 256 + b2) * 256 + b3) :: bytesToWords rest
  | _ => []

def chunk64 (l : List Nat) : List (List Nat) := go l.length l
where
  go : Nat → List Nat → List (List Nat)
    | _, [] => []
    | 0, _ => []
    | fuel + 1, l => l.take 64 :: go fuel (l.drop 64)

def padMsg (msg : List Nat) : List Nat :=
  let len := msg.length
  let bitLen := len * 8
  let padZeros := (119 - (len % 64)) % 64
  msg ++ [128] ++ List.replicate padZeros 0 ++
    [bitLen / 72057594037927936 % 256, bitLen / 281474976710656 % 256,
     bitLen / 1099511627776 % 256, bitLen / 4294967296 % 256,
     bitLen / 16777216 % 256, bitLen / 65536 % 256, bitLen / 256 % 256, bitLen % 256]

def wordBytes (w : Nat) : List Nat :=
  [w / 16777216 % 256, w / 65536 % 256, w / 256 % 256, w % 256]

def sha256 (msg : List Nat) : List Nat :=
  let blocks := chunk64 (padMsg msg)
  let hs := blocks.foldl (fun h blk => shaCompress h (bytesToWords blk)) shaInitState
  wordBytes hs.a ++ wordBytes hs.b ++ wordBytes hs.c ++ wordBytes hs.d ++
    wordBytes hs.e ++ wordBytes hs.f ++ wordBytes hs.g ++ wordBytes hs.h

-- ## Multiformats: base58btc, multibase, multihash, multicodec, base32

def natDigitsLE (b : Nat) (n : Nat) : List Nat := go n n
where
  go : Nat → Nat → List Nat
    | 0, _ => []
    | fuel + 1, n => if n = 0 then [] else n % b :: go fuel (n / b)

def ofDigitsLE (b : Nat) : List Nat → Nat
  | [] => 0
  | d :: ds => d + b * ofDigitsLE b ds

def beBytesToNat (bs : List Nat) : Nat := ofDigitsLE 256 bs.reverse

def countLeadZeros : List Nat → Nat
  | [] => 0
  | x :: xs => if x = 0 then countLeadZeros xs + 1 else 0

def b58alphabet : List Char := "123456789ABCDEFGHJKLMNPQRSTUVWXYZabcdefghijkmnopqrstuvwxyz".data

def b58digitChar (d : Nat) : Char := b58alphabet.getD d (Char.ofNat 49)

def mapB58 : List Nat → List Char
  | [] => []
  | d :: ds => b58digitChar d :: mapB58 ds

def b58encode (bs : List Nat) : List Char :=
  List.replicate (countLeadZeros bs) (Char.ofNat 49) ++ mapB58 (natDigitsLE 58 (beBytesToNat bs)).reverse

/-- multibase.encode(bs, "base58btc"). -/
def multibase_encode (bs : List Nat) : String := String.mk (Char.ofNat 122 :: b58encode bs)

def b58charVal (c : Char) : Option Nat := go b58alphabet 0
where
  go : List Char → Nat → Option Nat
    | [], _ => none
    | a :: as, i => if a = c then some i else go as (i + 1)

def countLeadOnes : List Char → Nat
  | [] => 0
  | c :: cs => if c = Char.ofNat 49 then countLeadOnes cs + 1 else 0

def b58vals : List Char → Option (List Nat)
  | [] => some []
  | c :: cs =>
    match b58charVal c, b58vals cs with
    | some v, some vs => some (v :: vs)
    | _, _ => none

def b58decode (cs : List Char) : Option (List Nat) :=
  let zeros := countLeadOnes cs
  let rest := cs.drop zeros
  match b58vals rest with
  | some vs => some (List.replicate zeros 0 ++ (natDigitsLE 256 (ofDigitsLE 58 vs.reverse)).reverse)
  | none => none

/-- multibase.decode; only the base58btc ("z") prefix occurs in this code base. -/
def multibase_decode (s : String) : Option (List Nat) :=
  match s.data with
  | c :: rest => if c = Char.ofNat 122 then b58decode rest else none
  | [] => none

/-- multihash.wrap(digest, "sha2-256"): code 0x12 and the digest length (< 128). -/
def multihash_wrap (digest : List Nat) : List Nat := 18 :: digest.length :: digest

/-- format_hash (manage.py line 235). -/
def format_hash (digest : List Nat) : String := multibase_encode (multihash_wrap digest)

/-- multicodec.wrap; only "ed25519-pub" (varint 0xed 0x01) occurs in this code base. -/
def multicodec_wrap (codec : String) (bs : List Nat) : List Nat :=
  if codec = "ed25519-pub" then 237 :: 1 :: bs else bs

def multicodec_unwrap (bs : List Nat) : Option (String × List Nat) :=
  match bs with
  | 237 :: 1 :: rest => some ("ed25519-pub", rest)
  | _ => none

def b32alphabet : List Char := "ABCDEFGHIJKLMNOPQRSTUVWXYZ234567".data

def b32digitChar (d : Nat) : Char := b32alphabet.getD d (Char.ofNat 65)

def bitsOfByte (b : Nat) : List Nat :=
  [b / 128 % 2, b / 64 % 2, b / 32 % 2, b / 16 % 2, b / 8 % 2, b / 4 % 2, b / 2 % 2, b % 2]

def bytesBits : List Nat → List Nat
  | [] => []
  | b :: bs => bitsOfByte b ++ bytesBits bs

def b32chars : List Nat → List Char
  | b1 :: b2 :: b3 :: b4 :: b5 :: rest =>
    b32digitChar (b1 * 16 + b2 * 8 + b3 * 4 + b4 * 2 + b5) :: b32chars rest
  | [] => []
  | [b1] => [b32digitChar (b1 * 16)]
  | [b1, b2] => [b32digitChar (b1 * 16 + b2 * 8)]
  | [b1, b2, b3] => [b32digitChar (b1 * 16 + b2 * 8 + b3 * 4)]
  | [b1, b2, b3, b4] => [b32digitChar (b1 * 16 + b2 * 8 + b3 * 4 + b4 * 2)]

/-- base64.b32encode (RFC 4648, with "=" padding to a multiple of 8 chars). -/
def b32encode (bs : List Nat) : List Char :=
  let cs := b32chars (bytesBits bs)
  cs ++ List.replicate ((8 - cs.length % 8) % 8) (Char.ofNat 61)

-- ## RFC 6902 JSON Patch (the jsonpatch library)

/-- JSON Pointer token unescaping: ~1 is "/", ~0 is "~". -/
def ptrUnescape : List Char → List Char
  | [] => []
  | c :: d :: rest =>
    if c = Char.ofNat 126 && d = Char.ofNat 48 then Char.ofNat 126 :: ptrUnescape rest
    else if c = Char.ofNat 126 && d = Char.ofNat 49 then Char.ofNat 47 :: ptrUnescape rest
    else c :: ptrUnescape (d :: rest)
  | [c] => [c]

/-- Parse a JSON Pointer into its reference tokens. -/
def ptrTokens (s : String) : Option (List String)
  := match s.data with
  | [] => some []
  | c :: rest =>
    if c = Char.ofNat 47 then some (goSplit rest [])
    else none
where
  goSplit : List Char → List Char → List String
    | [], acc => [String.mk (ptrUnescape acc.reverse)]
    | c :: cs, acc =>
      if c = Char.ofNat 47 then String.mk (ptrUnescape acc.reverse) :: goSplit cs []
      else goSplit cs (c :: acc)

def allDigits : List Char → Bool
  | [] => true
  | c :: cs => isDigitChar c && allDigits cs

def parseIndex (s : String) : Option Nat :=
  match s.data with
  | [] => none
  | cs => if allDigits cs then some (goVal cs 0) else none
where
  goVal : List Char → Nat → Nat
    | [], acc => acc
    | c :: cs, acc => goVal cs (acc * 10 + (c.toNat - 48))

def listSet : List Json → Nat → Json → Option (List Json)
  | [], _, _ => none
  | _ :: xs, 0, v => some (v :: xs)
  | x :: xs, n + 1, v =>
    match listSet xs n v with
    | some r => some (x :: r)
    | none => none

def listInsertAt : List Json → Nat → Json → Option (List Json)
  | xs, 0, v => some (v :: xs)
  | [], _ + 1, _ => none
  | x :: xs, n + 1, v =>
    match listInsertAt xs n v with
    | some r => some (x :: r)
    | none => none

def listRemoveAt : List Json → Nat → Option (List Json)
  | [], _ => none
  | _ :: xs, 0 => some xs
  | x :: xs, n + 1 =>
    match listRemoveAt xs n with
    | some r => some (x :: r)
    | none => none

def jsonGetPtr : Json → List String → Option Json
  | j, [] => some j
  | .obj kvs, t :: rest =>
    match lookupKV kvs t with
    | some v => jsonGetPtr v rest
    | none => none
  | .arr xs, t :: rest =>
    match parseIndex t with
    | some i =>
      match xs.get? i with
      | some v => jsonGetPtr v rest
      | none => none
    | none => none
  | _, _ :: _ => none

/-- RFC 6902 "add": replaces the target of an existing object member,
inserts into arrays (with "-" meaning append). -/
def jsonAddPtr : Json → List String → Json → Option Json
  | _, [], v => some v
  | .obj kvs, [t], v => some (.obj (setKeyKV kvs t v))
  | .arr xs, [t], v =>
    if t = "-" then some (.arr (xs ++ [v]))
    else match parseIndex t with
      | some i =>
        match listInsertAt xs i v with
        | some r => some (.arr r)
        | none => none
      | none => none
  | .obj kvs, t :: rest, v =>
    match lookupKV kvs t with
    | some w =>
      match jsonAddPtr w rest v with
      | some w2 => some (.obj (setKeyKV kvs t w2))
      | none => none
    | none => none
  | .arr xs, t :: rest, v =>
    match parseIndex t with
    | some i =>
      match xs.get? i with
      | some w =>
        match jsonAddPtr w rest v with
        | some w2 =>
          match listSet xs i w2 with
          | some r => some (.arr r)
          | none => none
        | none => none
      | none => none
    | none => none
  | _, _ :: _, _ => none

def jsonRemovePtr : Json → List String → Option Json
  | _, [] => none
  | .obj kvs, [t] =>
    match removeKeyKV kvs t with
    | some r => some (.obj r)
    | none => none
  | .arr xs, [t] =>
    match parseIndex t with
    | some i =>
      match listRemoveAt xs i with
      | some r => some (.arr r)
      | none => none
    | none => none
  | .obj kvs, t :: rest =>
    match lookupKV kvs t with
    | some w =>
      match jsonRemovePtr w rest with
      | some w2 => some (.obj (setKeyKV kvs t w2))
      | none => none
    | none => none
  | .arr xs, t :: rest =>
    match parseIndex t with
    | some i =>
      match xs.get? i with
      | some w =>
        match jsonRemovePtr w rest with
        | some w2 =>
          match listSet xs i w2 with
          | some r => some (.arr r)
          | none => none
        | none => none
      | none => none
    | none => none
  | _, _ :: _ => none

def jsonReplacePtr (j : Json) (ts : List String) (v : Json) : Option Json :=
  match ts with
  | [] => some v
  | _ =>
    match jsonGetPtr j ts with
    | some _ => jsonAddPtr j ts v
    | none => none

/-- One RFC 6902 operation. -/
def applyOp (doc : Json) (op : Json) : Except String Json := do
  let name ← match objGet op "op" with
    | some (.str s) => .ok s
    | _ => .error "Invalid patch: missing op"
  let path ← match objGet op "path" with
    | some (.str s) => .ok s
    | _ => .error "Invalid patch: missing path"
  let ts ← match ptrTokens path with
    | some ts => .ok ts
    | none => .error "Invalid patch: bad pointer"
  if name = "add" then
    match objGet op "value" with
    | some v =>
      match jsonAddPtr doc ts v with
      | some r => .ok r
      | none => .error "Patch conflict: add"
    | none => .error "Invalid patch: missing value"
  else if name = "remove" then
    match jsonRemovePtr doc ts with
    | some r => .ok r
    | none => .error "Patch conflict: remove"
  else if name = "replace" then
    match objGet op "value" with
    | some v =>
      match jsonReplacePtr doc ts v with
      | some r => .ok r
      | none => .error "Patch conflict: replace"
    | none => .error "Invalid patch: missing value"
  else if name = "move" then
    match objGet op "from" with
    | some (.str f) =>
      match ptrTokens f with
      | some fts =>
        match jsonGetPtr doc fts with
        | some v =>
          match jsonRemovePtr doc fts with
          | some d2 =>
            match jsonAddPtr d2 ts v with
            | some r => .ok r
            | none => .error "Patch conflict: move"
          | none => .error "Patch conflict: move"
        | none => .error "Patch conflict: move"
      | none => .error "Invalid patch: bad pointer"
    | _ => .error "Invalid patch: missing from"
  else if name = "copy" then
    match objGet op "from" with
    | some (.str f) =>
      match ptrTokens f with
      | some fts =>
        match jsonGetPtr doc fts with
        | some v =>
          match jsonAddPtr doc ts v with
          | some r => .ok r
          | none => .error "Patch conflict: copy"
        | none => .error "Patch conflict: copy"
      | none => .error "Invalid patch: bad pointer"
    | _ => .error "Invalid patch: missing from"
  else if name = "test" then
    match objGet op "value" with
    | some v =>
      match jsonGetPtr doc ts with
      | some w => if w = v then .ok doc else .error "Patch test failed"
      | none => .error "Patch test failed"
    | none => .error "Invalid patch: missing value"
  else .error "Invalid patch: unknown op"

def applyOps : Json → List Json → Except String Json
  | doc, [] => .ok doc
  | doc, op :: rest => do
    let d2 ← applyOp doc op
    applyOps d2 rest

/-- jsonpatch.apply_patch(doc, patch); a Python None document is Json.null. -/
def apply_patch (doc : Json) (patch : Json) : Except String Json :=
  match patch with
  | .arr ops => applyOps doc ops
  | _ => .error "Invalid patch: not a list"

-- ## Small Except-valued accessors shared by the embeddings

def liftOpt {A : Type} (x : Option A) (msg : String) : Except String A :=
  match x with
  | some a => .ok a
  | none => .error msg

/-- An optional field that must be a string (Python isinstance(v, str)). -/
def strField (j : Option Json) (msg : String) : Except String String :=
  match j with
  | some (.str s) => .ok s
  | _ => .error msg

def strVal (j : Json) (msg : String) : Except String String :=
  match j with
  | .str s => .ok s
  | _ => .error msg

/-- Python doc.get(key, []) followed by an isinstance(_, list) check. -/
def listField (j : Option Json) (msg : String) : Except String (List Json) :=
  match j with
  | none => .ok []
  | some (.arr l) => .ok l
  | _ => .error msg

-- ## manage.py constants

def METHOD : String := "webnext"

def PLACEHOLDER : String := "\x7b\x7bSCID\x7d\x7d"

def HISTORY_PROTO : String := "history:1"

def BASE_PROTO : String := "did:" ++ METHOD ++ ":1"

/-- The aries_askar Ed25519 key operations, abstracted: sign(secret, msg),
public bytes of a secret, verify(public, msg, signature). -/
structure Crypto where
  sign : List Nat → List Nat → List Nat
  pub : List Nat → List Nat
  verify : List Nat → List Nat → List Nat → Bool

/-- log_line_hash (manage.py lines 247-251), on the parsed JSON components. -/
def log_line_hash (prev_hash version_id timestamp patch : Json) : String :=
  format_hash (sha256 (canonBytes (Json.arr [prev_hash, version_id, timestamp, patch])))

/-- The seed hash: format_hash(sha256(base_proto)) (manage.py lines 128, 243-244). -/
def seedHash : String := format_hash (sha256 (utf8Bytes BASE_PROTO))

/-- The SCID version resolved by update_scid: an explicit argument wins;
otherwise the first character of the current final id segment when it is a
digit; otherwise 1 (manage.py lines 381-387). -/
def scidVerOf (scid_ver : Option Int) (old_scid : String) : Int :=
  match scid_ver with
  | some v => v
  | none =>
    match old_scid.data with
    | c :: _ => if isDigitChar c then Int.ofNat (c.toNat - 48) else 1
    | [] => 1

/-- update_scid (manage.py lines 369-402).  The document is given parsed;
the final json.loads(json.dumps(document).replace(doc_id, upd_id)) is
modelled by jsonStrReplace. -/
def update_scid (document : Json) (scid_ver : Option Int) : Except String (String × Json) := do
  let doc_id ← strField (objGet document "id") "Missing document ID"
  let id_parts := splitOnChar (Char.ofNat 58) doc_id
  if id_parts.head? ≠ some "did" ∨ id_parts.length < 4 then .error "Invalid document ID"
  else
    let old_scid := (id_parts.getLast?).getD ""
    let base := id_parts.dropLast
    if scidVerOf scid_ver old_scid ≠ 1 then .error "Only SCID version 1 is supported"
    else
      let canonStr := canonicalize document
      if ¬ asciiOnly canonStr then .error "UnicodeDecodeError"
      else
        let plc_id := sJoin ":" (base ++ [PLACEHOLDER])
        let norm := sReplace canonStr doc_id plc_id
        let scid := String.mk ((mapLower (b32encode (sha256 (utf8Bytes norm)))).take 24)
        let upd_id := sJoin ":" (base ++ [scid])
        .ok (upd_id, jsonStrReplace doc_id upd_id document)

/-- The proof object built by eddsa_sign before proofValue is attached. -/
def proofOptions (did kid created challenge : String) : List (String × Json) :=
  [("type", .str "DataIntegrityProof"),
   ("cryptosuite", .str "eddsa-jcs-2022"),
   ("verificationMethod", .str (did ++ "#" ++ kid)),
   ("created", .str created),
   ("challenge", .str challenge),
   ("proofPurpose", .str "authentication")]

/-- The signed input: sha256(JCS(document)) followed by sha256(JCS(proof
without proofValue)). -/
def signInput (document : Json) (did kid created challenge : String) : List Nat :=
  sha256 (canonBytes document) ++ sha256 (canonBytes (.obj (proofOptions did kid created challenge)))

/-- eddsa_sign (manage.py lines 405-418); created is the now() timestamp. -/
def eddsa_sign (C : Crypto) (document : Json) (sk_key : List Nat) (kid created challenge : String) :
    Except String Json := do
  let did ← strField (objGet document "id") "KeyError: id"
  let sig_input := signInput document did kid created challenge
  let proofValue := multibase_encode (C.sign sk_key sig_input)
  .ok (Json.obj (proofOptions did kid created challenge ++ [("proofValue", .str proofValue)]))

/-- verify_proof (manage.py lines 268-288). -/
def verify_proof (C : Crypto) (document proof method : Json) : Except String Unit := do
  if objGet proof "type" ≠ some (.str "DataIntegrityProof") then .error "Unsupported proof type"
  else if objGet proof "proofPurpose" ≠ some (.str "authentication") then
    .error "Expected authentication proof purpose"
  else if objGet proof "cryptosuite" ≠ some (.str "eddsa-jcs-2022") then
    .error "Unsupported cryptosuite"
  else do
    let pkm ← strField (objGet method "publicKeyMultibase") "Invalid multibase"
    let key_mc ← liftOpt (multibase_decode pkm) "Invalid multibase"
    let cw ← liftOpt (multicodec_unwrap key_mc) "Invalid multicodec"
    if cw.1 ≠ "ed25519-pub" then .error "Unsupported key type"
    else do
      let document2 ← liftOpt (objDel document "proof") "KeyError: proof"
      let data_hash := sha256 (canonBytes document2)
      let pv ← liftOpt (objPop proof "proofValue") "KeyError: proofValue"
      let pvs ← strVal pv.1 "Invalid multibase"
      let signature ← liftOpt (multibase_decode pvs) "Invalid multibase"
      let options_hash := sha256 (canonBytes pv.2)
      let sig_input := data_hash ++ options_hash
      if C.verify cw.2 sig_input signature then .ok ()
      else .error "Invalid proof signature"

/-- parse_verification_method (manage.py lines 254-265): resolved id and the
extended method dict. -/
def parse_verification_method (method : Json) (doc_id : String)
    (method_dict : List (String × Json)) : Except String (String × List (String × Json)) :=
  match method with
  | .obj _ => do
    let mid ← strField (objGet method "id") "Invalid log: invalid verification method ID"
    let mid := if strBegins "#" mid then doc_id ++ mid else mid
    if (lookupKV method_dict mid).isSome then .error "Invalid log: duplicate verification method ID"
    else .ok (mid, method_dict ++ [(mid, method)])
  | _ => .error "Invalid log: invalid verification methods"

def parseVMList (doc_id : String) : List Json → List (String × Json) →
    Except String (List (String × Json))
  | [], acc => .ok acc
  | m :: rest, acc => do
    let r ← parse_verification_method m doc_id acc
    parseVMList doc_id rest r.2

def authEntries (doc_id : String) : List Json → List (String × Json) → List (String × Json) →
    Except String (List (String × Json))
  | [], _, acc => .ok acc
  | a :: rest, vmDict, acc =>
    match a with
    | .str s =>
      let s := if strBegins "#" s then doc_id ++ s else s
      if ¬ strBegins (doc_id ++ "#") s then
        .error "Invalid log: only local authentication keys supported"
      else
        match lookupKV vmDict s with
        | some m => authEntries doc_id rest vmDict (acc ++ [(s, m)])
        | none => .error "Invalid log: invalid authentication key reference"
    | .obj _ => do
      let r ← parse_verification_method a doc_id vmDict
      match lookupKV r.2 r.1 with
      | some m => authEntries doc_id rest r.2 (acc ++ [(r.1, m)])
      | none => .error "Invalid log: invalid authentication key reference"
    | _ => .error "KeyError: authentication entry"

/-- The authentication key set of a document (manage.py lines 164-189):
parse verificationMethod into a dict, then resolve the authentication list. -/
def authKeysFor (doc : Json) (doc_id : String) : Except String (List (String × Json)) := do
  let vmList ← listField (objGet doc "verificationMethod") "Invalid log: invalid verification methods"
  let vmDict ← parseVMList doc_id vmList []
  let auths ← listField (objGet doc "authentication") "Invalid log: invalid authentication"
  authEntries doc_id auths vmDict []

def proofLoop (C : Crypto) (doc : Json) (doc_id : String)
    (prev_auth_keys : List (String × Json)) : List Json → Except String Unit
  | [] => .ok ()
  | p :: rest =>
    match p with
    | .obj _ => do
      let mid ← strField (objGet p "verificationMethod") "Invalid log: invalid proof verification method"
      let mid := if strBegins "#" mid then doc_id ++ mid else mid
      match lookupKV prev_auth_keys mid with
      | none => .error "Invalid log: cannot resolve verification method"
      | some vmethod => do
        verify_proof C doc p vmethod
        proofLoop C doc doc_id prev_auth_keys rest
    | _ => .error "Invalid log: invalid proof"

/-- The proof checks of load_log (manage.py lines 198-218): normalize
doc.get("proof", []), resolve each proof's method in prev_auth_keys and
verify it. -/
def proofsOf (doc : Json) : Except String (List Json) :=
  match objGet doc "proof" with
  | none => .ok []
  | some (.obj kvs) => .ok [Json.obj kvs]
  | some (.arr l) => .ok l
  | some _ => .error "Invalid log: invalid or missing proof"

def checkProofs (C : Crypto) (doc : Json) (doc_id : String)
    (prev_auth_keys : List (String × Json)) : Except String Unit := do
  let proofs ← proofsOf doc
  proofLoop C doc doc_id prev_auth_keys proofs

/-- The loop state of load_log: doc, prev_hash, prev_controllers,
prev_auth_keys, index and the settled document id. -/
structure LoadCtx where
  index : Nat
  doc : Json
  prevHash : Json
  prevControllers : List Json
  prevAuthKeys : List (String × Json)
  docId : Option String

def initialLoadCtx : LoadCtx :=
  { index := 1, doc := .null, prevHash := .str seedHash,
    prevControllers := [], prevAuthKeys := [], docId := none }

/-- Python membership doc_id in controllers (a str against parsed values). -/
def memStr (s : String) : List Json → Bool
  | [] => false
  | .str t :: rest => t = s || memStr s rest
  | _ :: rest => memStr s rest

/-- Line parsing (manage.py lines 133-136): a 5-element JSON array. -/
def parseEntry (line : Json) : Except String (Json × Json × Json × Json × Json) :=
  match line with
  | .arr [a, b, c, d, e] => .ok (a, b, c, d, e)
  | _ => .error "Invalid log: not parsable"

/-- manage.py lines 138-139: the patched document must be an object. -/
def requireObj (doc : Json) : Except String Unit :=
  match doc with
  | .obj _ => .ok ()
  | _ => .error "Invalid log: invalid document"

/-- manage.py lines 140-143: the recomputed chain hash must match. -/
def hashCheck (verify_hash : Bool) (prevHash log_hash version_id timestamp patch : Json) :
    Except String Unit :=
  if verify_hash ∧ log_hash ≠ .str (log_line_hash prevHash version_id timestamp patch) then
    .error "Invalid log: hash mismatch"
  else .ok ()

/-- manage.py lines 145-154: the id must be a string; at index 1 it must
equal the SCID derivation of the document itself, later it must equal the
settled id. -/
def docIdStep (index : Nat) (prevDocId : Option String) (doc : Json) : Except String String := do
  let check_id ← strField (objGet doc "id") "Invalid log: invalid document ID"
  if index = 1 then do
    let r ← update_scid doc none
    if check_id ≠ r.1 then .error "Invalid log: invalid SCID derivation"
    else .ok check_id
  else match prevDocId with
    | some d =>
      if check_id ≠ d then .error "Invalid log: document ID has changed"
      else .ok d
    | none => .error "Invalid log: document ID has changed"

/-- manage.py lines 156-162: controller normalization (absent and null give
the singleton doc_id, a string is wrapped, a list is kept, anything else is
rejected). -/
def controllersStep (doc : Json) (doc_id : String) : Except String (List Json) :=
  match objGet doc "controller" with
  | none => .ok [Json.str doc_id]
  | some .null => .ok [Json.str doc_id]
  | some (.str s) => .ok [Json.str s]
  | some (.arr l) => .ok l
  | some _ => .error "Invalid log: invalid controllers"

/-- manage.py lines 164-218, the verify_signature block: build the document
authentication key set, check the DID against the prior controllers (the
entry's own at index 1), and verify every document proof against the prior
authentication keys (the entry's own at index 1). -/
def sigStep (C : Crypto) (verify_signature : Bool) (index : Nat) (prevControllers : List Json)
    (prevAuthKeys : List (String × Json)) (doc : Json) (doc_id : String)
    (controllers : List Json) : Except String (List (String × Json)) :=
  if verify_signature then do
    let keys ← authKeysFor doc doc_id
    let prevC := if index = 1 then controllers else prevControllers
    let prevK := if index = 1 then keys else prevAuthKeys
    if ¬ memStr doc_id prevC then .error "Invalid log: DID missing from controllers"
    else do
      checkProofs C doc doc_id prevK
      .ok keys
  else .ok []

/-- The body of load_log's per-line loop (manage.py lines 130-225). -/
def processLine (C : Crypto) (verify_hash verify_signature : Bool) (ctx : LoadCtx) (line : Json) :
    Except String (LoadCtx × (Nat × Json × Json)) := do
  let parts ← parseEntry line
  let (log_hash, version_id, timestamp, patch, _proofs) := parts
  let doc ← apply_patch ctx.doc patch
  requireObj doc
  hashCheck verify_hash ctx.prevHash log_hash version_id timestamp patch
  let doc_id ← docIdStep ctx.index ctx.docId doc
  let controllers ← controllersStep doc doc_id
  let auth_keys ← sigStep C verify_signature ctx.index ctx.prevControllers ctx.prevAuthKeys
    doc doc_id controllers
  .ok ({ index := ctx.index + 1, doc := doc, prevHash := log_hash,
         prevControllers := controllers, prevAuthKeys := auth_keys, docId := some doc_id },
       (ctx.index, log_hash, doc))

def loadGo (C : Crypto) (verify_hash verify_signature : Bool) :
    List Json → LoadCtx → Except String (List (Nat × Json × Json))
  | [], _ => .ok []
  | line :: rest, ctx => do
    let r ← processLine C verify_hash verify_signature ctx line
    let out ← loadGo C verify_hash verify_signature rest r.1
    .ok (r.2 :: out)

/-- load_log (manage.py lines 107-228), on the parsed log lines (header
first).  The generator is modelled as the list of yielded
(index, log_hash, document) triples, or the error that aborts it. -/
def load_log (C : Crypto) (lines : List Json) (verify_hash verify_signature : Bool) :
    Except String (List (Nat × Json × Json)) :=
  match lines with
  | [] => .error "Invalid log: missing header"
  | header :: entries =>
    match header with
    | .arr [h0, h1, _] =>
      if h0 ≠ .str HISTORY_PROTO then .error "Invalid log: unsupported version"
      else if h1 ≠ .str BASE_PROTO then .error "Invalid log: unsupported protocol"
      else loadGo C verify_hash verify_signature entries initialLoadCtx
    | _ => .error "Invalid log: header not parsable"

/-- The pure core of write_document (manage.py lines 84-97): the log line it
appends.  The patch (jsonpatch.make_patch) is taken as an input. -/
def write_log_line (C : Crypto) (document : Json) (prev_hash : String) (version_id : Int)
    (timestamp : String) (patch : Json) (sk_key : List Nat) (kid created : String) :
    Except String Json := do
  let cur_hash := log_line_hash (.str prev_hash) (.num version_id) (.str timestamp) patch
  let proof ← eddsa_sign C document sk_key kid created cur_hash
  .ok (.arr [.str cur_hash, .num version_id, .str timestamp, patch, .arr [proof]])

-- ## did_history/loader.py

/-- Modelled from the spec: the missing did_history/state.py DocumentState
(spec section 3).  Timestamps are kept as their RFC-3339 strings, whose
lexicographic order is their chronological order at this fixed format;
`prev_hash` and `patch` are retained so that check_version_hash can
recompute the content hash (spec invariant 2). -/
structure DocumentState where
  document : Json
  version_id : Int
  version_hash : String
  timestamp : String
  prev_hash : String
  patch : Json
  proofs : List Json
  controllers : List Json
  auth_keys : List (String × Json)
  deactivated : Bool
  deriving DecidableEq

/-- Modelled from the spec: DocumentState.load_history_line of the missing
did_history/state.py, following spec section 4.F and invariants 1, 3, 4 of
section 3: parse the 5-element entry, apply the patch, validate the id
(SCID derivation at v1, stability later), require version_id 1 at v1 and
increments of 1 later, require non-decreasing timestamps, normalize
controllers, build the authentication key set; prev_hash is seeded from
the base protocol hash at v1 (spec section 3, LogHeader). -/
def parseHistoryLine (parts : Json) : Except String (String × Int × String × Json × Json) :=
  match parts with
  | .arr [.str lh, .num v, .str ts, patch, proofsJ] => .ok (lh, v, ts, patch, proofsJ)
  | _ => .error "Invalid history entry"

def proofsListJ (j : Json) : Except String (List Json) :=
  match j with
  | .arr l => .ok l
  | _ => .error "Invalid history entry: proofs"

/-- Modelled from the spec: the id/version/timestamp validation of the
missing state.py against the previous state (invariants 1, 3, 4 of spec
section 3), returning the previous entry hash (the base-protocol seed at
v1, spec section 3, LogHeader). -/
def historyPrevCheck (did : String) (version_id : Int) (timestamp : String) (doc : Json)
    (prev : Option DocumentState) : Except String String :=
  match prev with
  | none => do
    let r ← update_scid doc none
    if did ≠ r.1 then .error "Invalid history entry: SCID derivation"
    else if version_id ≠ 1 then .error "Invalid history entry: version ID"
    else .ok seedHash
  | some p =>
    if objGet p.document "id" ≠ some (.str did) then
      .error "Invalid history entry: document ID changed"
    else if version_id ≠ p.version_id + 1 then .error "Invalid history entry: version ID"
    else if strLt timestamp p.timestamp then .error "Invalid history entry: timestamp"
    else .ok p.version_hash

def DocumentState.load_history_line (parts : Json) (prev : Option DocumentState) :
    Except String DocumentState := do
  let fields ← parseHistoryLine parts
  let (log_hash, version_id, timestamp, patch, proofsJ) := fields
  let proofs ← proofsListJ proofsJ
  let doc ← apply_patch (match prev with | some p => p.document | none => .null) patch
  let did ← strField (objGet doc "id") "Invalid history entry: document ID"
  let prev_hash ← historyPrevCheck did version_id timestamp doc prev
  let controllers ← controllersStep doc did
  let auth_keys ← authKeysFor doc did
  .ok { document := doc, version_id := version_id, version_hash := log_hash,
        timestamp := timestamp, prev_hash := prev_hash, patch := patch,
        proofs := proofs, controllers := controllers, auth_keys := auth_keys,
        deactivated := objGet doc "deactivated" = some (.bool true) }

/-- Modelled from the spec: DocumentState.check_version_hash of the missing
did_history/state.py (spec invariant 2): recompute and compare the entry
hash. -/
def DocumentState.check_version_hash (s : DocumentState) : Except String Unit :=
  if s.version_hash = log_line_hash (.str s.prev_hash) (.num s.version_id)
      (.str s.timestamp) s.patch then .ok ()
  else .error "Invalid history entry: hash mismatch"

/-- The verify_state hook of iter_history (loader.py line 16). -/
def VerifyStateHook : Type :=
  DocumentState → Option DocumentState → Bool → Except String Unit

def runHook (hook : Option VerifyStateHook) (s : DocumentState) (prev : Option DocumentState)
    (done : Bool) : Except String Unit :=
  match hook with
  | some f => f s prev done
  | none => .ok ()

/-- The terminal errors of iter_history (loader.py lines 77-82), with the
Python truthiness of version_id (0 counts as absent). -/
def cutoffErrorFor (version_id : Option Int) (version_time : Option String) : String :=
  match version_id with
  | some v =>
    if v = 0 then
      match version_time with
      | some _ => "Cannot resolve versionTime"
      | none => "Empty document history"
    else "Cannot resolve versionId"
  | none =>
    match version_time with
    | some _ => "Cannot resolve versionTime"
    | none => "Empty document history"

/-- iter_history (loader.py lines 40-82), on the parsed log lines.  The
sliding window (prev_state, state, next_state) of the source loop is the
(prev, incoming state) pair threaded through go; version_time comparison
`version_time < next_state.timestamp` is the string order.  On an empty
line source the Python loop never terminates (done is never set); the
model returns the terminal error of lines 77-82 in that case. -/
def iterGo (version_id : Option Int) (version_time : Option String)
    (verify_state : Option VerifyStateHook) :
    List Json → Option DocumentState → Option DocumentState → List DocumentState →
      Except String (List DocumentState)
  | [], _, none, _ => .error (cutoffErrorFor version_id version_time)
  | [], prev, some s, acc => do
    s.check_version_hash
    runHook verify_state s prev true
    .ok (acc ++ [s])
  | l :: rest, prev, none, acc => do
    let ns ← DocumentState.load_history_line l none
    let doneTime := match version_time with
      | some t => strLt t ns.timestamp
      | none => false
    if doneTime then .error (cutoffErrorFor version_id version_time)
    else iterGo version_id version_time verify_state rest prev (some ns) acc
  | l :: rest, prev, some s, acc => do
    let ns ← DocumentState.load_history_line l (some s)
    let doneTime := match version_time with
      | some t => strLt t ns.timestamp
      | none => false
    let doneVid := match version_id with
      | some v => decide (s.version_id = v)
      | none => false
    let done := doneTime || doneVid
    s.check_version_hash
    runHook verify_state s prev done
    if done then .ok (acc ++ [s])
    else iterGo version_id version_time verify_state rest (some s) (some ns) (acc ++ [s])

def iter_history (lines : List Json) (version_id : Option Int) (version_time : Option String)
    (verify_state : Option VerifyStateHook) : Except String (List DocumentState) :=
  iterGo version_id version_time verify_state lines none none []

-- ## Concrete documents and histories (data for the closed theorems)

/-- A crypto stub whose verification always succeeds: theorems using it
exercise everything except the Ed25519 primitive itself. -/
def Cz : Crypto := { sign := fun _ _ => [], pub := fun k => k, verify := fun _ _ _ => true }

/-- A crypto stub with a matching sign/verify pair. -/
def Cw : Crypto :=
  { sign := fun sk m => sk ++ m, pub := fun k => k,
    verify := fun pk m s => decide (s = pk ++ m) }

def logHeader : Json := .arr [.str "history:1", .str "did:webnext:1", .obj []]

/-- A patch that installs d as the whole document (the v1 patch shape). -/
def rootPatch (d : Json) : Json := .arr [.obj [("op", .str "add"), ("path", .str ""), ("value", d)]]

/-- idA is a fixed point of SCID derivation for the one-key document docA
(checked below by evaluation). -/
def idA : String := "did:webnext:example.com:ff4c2yf5ga75mjnl3ww3vo5u"

def docA : Json := .obj [("id", .str idA)]

def docA2 : Json := .obj [("id", .str idA), ("alsoKnownAs", .arr [.str "did:web:example.com"])]

def tsA1 : String := "2024-01-02T00:00:00Z"

def tsA2 : String := "2024-01-01T00:00:00Z"

def patchA1 : Json := rootPatch docA

def hashA1 : String := log_line_hash (.str seedHash) (.num 1) (.str tsA1) patchA1

def lineA1 : Json := .arr [.str hashA1, .num 1, .str tsA1, patchA1, .arr []]

def patchA2 : Json := .arr [.obj [("op", .str "add"), ("path", .str "/alsoKnownAs"),
  ("value", .arr [.str "did:web:example.com"])]]

def hashA2 : String := log_line_hash (.str hashA1) (.num 2) (.str tsA2) patchA2

def lineA2 : Json := .arr [.str hashA2, .num 2, .str tsA2, patchA2, .arr []]

/-- A hash-consistent two-entry history whose timestamps strictly decrease. -/
def histDesc : List Json := [logHeader, lineA1, lineA2]

/-- Entry 1 recorded with version_id 7 (hash computed over 7). -/
def hashA7 : String := log_line_hash (.str seedHash) (.num 7) (.str tsA1) patchA1

def lineA7 : Json := .arr [.str hashA7, .num 7, .str tsA1, patchA1, .arr []]

def histV7 : List Json := [logHeader, lineA7]

/-- Entry 2 gives the document an integer controller. -/
def patchCtl : Json := .arr [.obj [("op", .str "add"), ("path", .str "/controller"),
  ("value", .num 42)]]

def hashCtl : String := log_line_hash (.str hashA1) (.num 2) (.str tsA1) patchCtl

def lineCtl : Json := .arr [.str hashCtl, .num 2, .str tsA1, patchCtl, .arr []]

def histBadCtl : List Json := [logHeader, lineA1, lineCtl]

/-- A one-entry history whose log-line proofs element is an empty list and
whose document carries no proof member. -/
def histNoProof : List Json := [logHeader, lineA1]

/-- The document family used for SCID non-idempotence: derivation succeeds
but returns an id whose SCID begins with the digit 4. -/
def docBsrc : Json := .obj [("id", .str "did:webnext:bad3.com:x")]

def idB : String := "did:webnext:bad3.com:4rjhldygi25prhqtzvina27t"

def docB : Json := .obj [("id", .str idB)]

/-- A 4-segment did whose final segment starts with the digit 2. -/
def docV2 : Json := .obj [("id", .str "did:webnext:example.com:2abc")]

-- A self-signed genesis document carrying verification method, the matching
-- authentication reference, and an attached data-integrity proof.

def idS : String := "did:webnext:example.com:dkax4w4kcgwpts23nlkewxfv"

def pkmS : String := "z6MkeXCES4onVW4up9Qgz1KRnZsKmGufcaZxF6Zpv2w5QwUK"

def pvS : String := "z2Ana1pUpv2ZbMVkwF5FXapYeBEjdxDatLn7nvJkhgTSXbs59SyZSx866bXirPgj8QQVB57uxHJBG1YFvkRbFj4T"

def vmS : Json := .obj [("id", .str (idS ++ "#key-1")), ("type", .str "Multikey"),
  ("controller", .str idS), ("publicKeyMultibase", .str pkmS)]

def proofS : Json := .obj [("type", .str "DataIntegrityProof"), ("cryptosuite", .str "eddsa-jcs-2022"),
  ("verificationMethod", .str "#key-1"), ("created", .str "2024-01-01T00:00:00Z"),
  ("challenge", .str "c0"), ("proofPurpose", .str "authentication"), ("proofValue", .str pvS)]

def docS : Json := .obj [("id", .str idS), ("authentication", .arr [.str (idS ++ "#key-1")]),
  ("verificationMethod", .arr [vmS]), ("proof", proofS)]

def docS2 : Json := .obj [("id", .str idS), ("authentication", .arr [.str (idS ++ "#key-1")]),
  ("verificationMethod", .arr [vmS]), ("proof", proofS),
  ("alsoKnownAs", .arr [.str "did:web:example.com"])]

def patchS1 : Json := rootPatch docS

def tsS1 : String := "2024-01-01T00:00:00Z"

def tsS2 : String := "2024-01-02T00:00:00Z"

def hashS1 : String := log_line_hash (.str seedHash) (.num 1) (.str tsS1) patchS1

def lineS1 : Json := .arr [.str hashS1, .num 1, .str tsS1, patchS1, .arr []]

def patchS2 : Json := .arr [.obj [("op", .str "add"), ("path", .str "/alsoKnownAs"),
  ("value", .arr [.str "did:web:example.com"])]]

def hashS2 : String := log_line_hash (.str hashS1) (.num 2) (.str tsS2) patchS2

def lineS2 : Json := .arr [.str hashS2, .num 2, .str tsS2, patchS2, .arr []]

/-- A two-entry history whose documents both carry a proof. -/
def histSig : List Json := [logHeader, lineS1, lineS2]

-- Histories for the did_history iterator (entry lines only, no header).

def ihash1 : String := log_line_hash (.str seedHash) (.num 1) (.str tsS1) patchA1

def iline1 : Json := .arr [.str ihash1, .num 1, .str tsS1, patchA1, .arr []]

def ipatch2 : Json := .arr [.obj [("op", .str "add"), ("path", .str "/alsoKnownAs"),
  ("value", .arr [.str "did:web:example.com"])]]

def ihash2 : String := log_line_hash (.str ihash1) (.num 2) (.str tsS2) ipatch2

def iline2 : Json := .arr [.str ihash2, .num 2, .str tsS2, ipatch2, .arr []]

def stateI1 : DocumentState :=
  { document := docA, version_id := 1, version_hash := ihash1, timestamp := tsS1,
    prev_hash := seedHash, patch := patchA1, proofs := [], controllers := [.str idA],
    auth_keys := [], deactivated := false }

def stateI2 : DocumentState :=
  { document := docA2, version_id := 2, version_hash := ihash2, timestamp := tsS2,
    prev_hash := ihash1, patch := ipatch2, proofs := [], controllers := [.str idA],
    auth_keys := [], deactivated := false }

-- ## Derived predicates used by the claim theorems

/-- The hash-chain property of a list of parsed log entries: each entry is a
5-element array whose first element is the log_line_hash of the previous
entry hash (seeded by the caller) and its own components. -/
def chainOk : Json → List Json → Prop
  | _, [] => True
  | prev, e :: rest => ∃ v t p pr,
      e = .arr [.str (log_line_hash prev v t p), v, t, p, pr] ∧
      chainOk (.str (log_line_hash prev v t p)) rest

/-- The signature policy of load_log on its yielded entries: the document
proofs of the first entry are checked against that entry's own
authentication key set (the inception bootstrap), and the proofs of every
later entry against the authentication key set of its predecessor. -/
def proofChainOk (C : Crypto) (d : String) : Bool → List (String × Json) →
    List (Nat × Json × Json) → Prop
  | _, _, [] => True
  | first, prevKeys, e :: rest => ∃ keys,
      authKeysFor e.2.2 d = .ok keys ∧
      checkProofs C e.2.2 d (if first then keys else prevKeys) = .ok () ∧
      proofChainOk C d false keys rest

/-- The signature-free reading of load_log stated by the amended claim C10:
identical parsing, patch application, hash checking, id and SCID checks and
controller normalization, with no authentication parsing, no
DID-in-controllers check and no proof verification. -/
def processLineNoSig (verify_hash : Bool) (ctx : LoadCtx) (line : Json) :
    Except String (LoadCtx × (Nat × Json × Json)) := do
  let parts ← parseEntry line
  let (log_hash, version_id, timestamp, patch, _proofs) := parts
  let doc ← apply_patch ctx.doc patch
  requireObj doc
  hashCheck verify_hash ctx.prevHash log_hash version_id timestamp patch
  let doc_id ← docIdStep ctx.index ctx.docId doc
  let controllers ← controllersStep doc doc_id
  .ok ({ index := ctx.index + 1, doc := doc, prevHash := log_hash,
         prevControllers := controllers, prevAuthKeys := [], docId := some doc_id },
       (ctx.index, log_hash, doc))

def loadGoNoSig (verify_hash : Bool) :
    List Json → LoadCtx → Except String (List (Nat × Json × Json))
  | [], _ => .ok []
  | line :: rest, ctx => do
    let r ← processLineNoSig verify_hash ctx line
    let out ← loadGoNoSig verify_hash rest r.1
    .ok (r.2 :: out)

def load_log_nosig (lines : List Json) (verify_hash : Bool) :
    Except String (List (Nat × Json × Json)) :=
  match lines with
  | [] => .error "Invalid log: missing header"
  | header :: entries =>
    match header with
    | .arr [h0, h1, _] =>
      if h0 ≠ .str HISTORY_PROTO then .error "Invalid log: unsupported version"
      else if h1 ≠ .str BASE_PROTO then .error "Invalid log: unsupported protocol"
      else loadGoNoSig verify_hash entries initialLoadCtx
    | _ => .error "Invalid log: header not parsable"

-- ## Inversion lemmas for the load_log pipeline

theorem ebind_ok {ε α β : Type} (x : Except ε α) (f : α → Except ε β) (b : β) :
    (x >>= f) = .ok b ↔ ∃ a, x = .ok a ∧ f a = .ok b := by
  cases x <;> simp [Bind.bind, Except.bind]

theorem liftOpt_ok {A : Type} {x : Option A} {msg a} (h : liftOpt x msg = .ok a) : x = some a := by
  unfold liftOpt at h
  split at h
  · simp only [Except.ok.injEq] at h
    rw [h]
  · exact absurd h (by simp)

theorem strField_ok {j msg s} (h : strField j msg = .ok s) : j = some (.str s) := by
  unfold strField at h
  split at h
  · simp only [Except.ok.injEq] at h
    rw [h]
  · exact absurd h (by simp)

theorem strVal_ok {j msg s} (h : strVal j msg = .ok s) : j = .str s := by
  unfold strVal at h
  split at h
  · simp only [Except.ok.injEq] at h
    rw [h]
  · exact absurd h (by simp)

theorem parseEntry_ok {line a b c d e} (h : parseEntry line = .ok (a, b, c, d, e)) :
    line = .arr [a, b, c, d, e] := by
  unfold parseEntry at h
  split at h
  · simp_all
  · exact absurd h (by simp)

theorem hashCheck_ok {vh ph lh v t p} (h : hashCheck vh ph lh v t p = .ok ())
    (hvh : vh = true) : lh = .str (log_line_hash ph v t p) := by
  unfold hashCheck at h
  split at h
  · exact absurd h (by simp)
  · rename_i hc
    subst hvh
    simp at hc
    exact hc

theorem docIdStep_ok {index prevDocId doc did} (h : docIdStep index prevDocId doc = .ok did) :
    objGet doc "id" = some (.str did) ∧ (index ≠ 1 → prevDocId = some did) := by
  unfold docIdStep at h
  simp only [ebind_ok] at h
  obtain ⟨cid, h1, h⟩ := h
  have hcid := strField_ok h1
  split at h
  · rename_i hidx
    simp only [ebind_ok] at h
    obtain ⟨r, hr, h⟩ := h
    split at h
    · exact absurd h (by simp)
    · simp only [Except.ok.injEq] at h
      subst h
      exact ⟨hcid, fun hne => absurd hidx hne⟩
  · rename_i hidx
    split at h
    · rename_i d
      split at h
      · exact absurd h (by simp)
      · rename_i hne
        simp only [not_not] at hne
        simp only [Except.ok.injEq] at h
        subst h
        subst hne
        exact ⟨hcid, fun _ => rfl⟩
    · exact absurd h (by simp)

theorem sigStep_ok {C vs index prevC prevK doc doc_id controllers keys}
    (h : sigStep C vs index prevC prevK doc doc_id controllers = .ok keys) :
    (vs = true → authKeysFor doc doc_id = .ok keys ∧
      checkProofs C doc doc_id (if index = 1 then keys else prevK) = .ok ()) ∧
    (vs = false → keys = []) := by
  unfold sigStep at h
  split at h
  · rename_i hvs
    simp only [ebind_ok] at h
    obtain ⟨ks, hks, h⟩ := h
    by_cases hidx : index = 1
    · simp only [if_pos hidx] at h
      split at h
      · exact absurd h (by simp)
      · simp only [ebind_ok] at h
        obtain ⟨u, hu, h⟩ := h
        cases u
        simp only [Except.ok.injEq] at h
        subst h
        refine ⟨fun _ => ⟨hks, by rw [if_pos hidx]; exact hu⟩, fun hf => ?_⟩
        rw [hvs] at hf
        exact absurd hf (by simp)
    · simp only [if_neg hidx] at h
      split at h
      · exact absurd h (by simp)
      · simp only [ebind_ok] at h
        obtain ⟨u, hu, h⟩ := h
        cases u
        simp only [Except.ok.injEq] at h
        subst h
        refine ⟨fun _ => ⟨hks, by rw [if_neg hidx]; exact hu⟩, fun hf => ?_⟩
        rw [hvs] at hf
        exact absurd hf (by simp)
  · rename_i hvs
    simp only [Bool.not_eq_true] at hvs
    simp only [Except.ok.injEq] at h
    subst h
    exact ⟨fun ht => absurd ht (by rw [hvs]; simp), fun _ => rfl⟩

theorem processLine_ok {C : Crypto} {vh vs : Bool} {ctx : LoadCtx} {line : Json}
    {ctx2 : LoadCtx} {y : Nat × Json × Json}
    (h : processLine C vh vs ctx line = .ok (ctx2, y)) :
    ∃ lh v t p pr doc did controllers keys,
      line = .arr [lh, v, t, p, pr] ∧
      apply_patch ctx.doc p = .ok doc ∧
      objGet doc "id" = some (.str did) ∧
      (vh = true → lh = .str (log_line_hash ctx.prevHash v t p)) ∧
      (ctx.index ≠ 1 → ctx.docId = some did) ∧
      (vs = true → authKeysFor doc did = .ok keys ∧
        checkProofs C doc did (if ctx.index = 1 then keys else ctx.prevAuthKeys) = .ok ()) ∧
      (vs = false → keys = []) ∧
      y = (ctx.index, lh, doc) ∧
      ctx2 = { index := ctx.index + 1, doc := doc, prevHash := lh,
               prevControllers := controllers, prevAuthKeys := keys, docId := some did } := by
  unfold processLine at h
  simp only [ebind_ok] at h
  obtain ⟨⟨lh, v, t, p, pr⟩, hparse, h⟩ := h
  obtain ⟨doc, hpatch, h⟩ := h
  obtain ⟨u1, hobj, h⟩ := h
  obtain ⟨u2, hhash, h⟩ := h
  obtain ⟨did, hdid, h⟩ := h
  obtain ⟨controllers, hctl, h⟩ := h
  obtain ⟨keys, hsig, h⟩ := h
  simp only [Except.ok.injEq, Prod.mk.injEq] at h
  obtain ⟨hctx2, hy⟩ := h
  cases u1
  cases u2
  obtain ⟨hid, hprev⟩ := docIdStep_ok hdid
  obtain ⟨hsig1, hsig0⟩ := sigStep_ok hsig
  exact ⟨lh, v, t, p, pr, doc, did, controllers, keys,
    parseEntry_ok hparse, hpatch, hid,
    fun hvh => hashCheck_ok hhash hvh, hprev, hsig1, hsig0,
    hy.symm, hctx2.symm⟩

theorem loadGo_nil {C vh vs ctx out} (h : loadGo C vh vs [] ctx = .ok out) : out = [] := by
  unfold loadGo at h
  simp only [Except.ok.injEq] at h
  exact h.symm

theorem loadGo_cons {C vh vs line rest ctx out} (h : loadGo C vh vs (line :: rest) ctx = .ok out) :
    ∃ ctx2 y rout, processLine C vh vs ctx line = .ok (ctx2, y) ∧
      loadGo C vh vs rest ctx2 = .ok rout ∧ out = y :: rout := by
  unfold loadGo at h
  simp only [ebind_ok] at h
  obtain ⟨⟨ctx2, y⟩, hp, h⟩ := h
  obtain ⟨rout, hr, h⟩ := h
  simp only [Except.ok.injEq] at h
  exact ⟨ctx2, y, rout, hp, hr, h.symm⟩

theorem loadGo_chain {C vs} : ∀ (entries : List Json) (ctx : LoadCtx) out,
    loadGo C true vs entries ctx = .ok out → chainOk ctx.prevHash entries
  | [], _, _, _ => trivial
  | line :: rest, ctx, out, h => by
    obtain ⟨ctx2, y, rout, hp, hr, _⟩ := loadGo_cons h
    obtain ⟨lh, v, t, p, pr, doc, did, controllers, keys,
      hline, hpatch, hid, hhash, hprev, hsig1, hsig0, hy, hctx2⟩ := processLine_ok hp
    have hlh := hhash rfl
    subst hlh
    refine ⟨v, t, p, pr, hline, ?_⟩
    have := loadGo_chain rest ctx2 rout hr
    rw [hctx2] at this
    exact this

theorem loadGo_idx {C vh vs} : ∀ (entries : List Json) (ctx : LoadCtx) out,
    loadGo C vh vs entries ctx = .ok out →
    ∀ i e, out.get? i = some e → e.1 = ctx.index + i
  | [], _, out, h => by
    have := loadGo_nil h
    subst this
    intro i e he
    exact absurd he (by simp)
  | line :: rest, ctx, out, h => by
    obtain ⟨ctx2, y, rout, hp, hr, hout⟩ := loadGo_cons h
    obtain ⟨lh, v, t, p, pr, doc, did, controllers, keys,
      hline, hpatch, hid, hhash, hprev, hsig1, hsig0, hy, hctx2⟩ := processLine_ok hp
    subst hout
    intro i e he
    match i with
    | 0 =>
      simp only [List.get?_cons_zero, Option.some.injEq] at he
      rw [← he, hy]
      simp
    | Nat.succ j =>
      simp only [List.get?_cons_succ] at he
      have h2 := loadGo_idx rest ctx2 rout hr j e he
      have h3 : ctx2.index = ctx.index + 1 := by rw [hctx2]
      rw [h3] at h2
      rw [h2]
      omega

theorem load_log_ok_inv {C lines vh vs out} (h : load_log C lines vh vs = .ok out) :
    ∃ header entries, lines = header :: entries ∧
      loadGo C vh vs entries initialLoadCtx = .ok out := by
  cases lines with
  | nil => exact absurd h (by simp [load_log])
  | cons header entries =>
    refine ⟨header, entries, rfl, ?_⟩
    unfold load_log at h
    split at h
    · rename_i heq
      exact absurd heq (by simp)
    · rename_i x xs heq
      injection heq with he1 he2
      subst he1
      subst he2
      split at h
      · split at h
        · exact absurd h (by simp)
        · split at h
          · exact absurd h (by simp)
          · exact h
      · exact absurd h (by simp)

theorem loadGo_c3 {C vh} : ∀ (entries : List Json) (ctx : LoadCtx) out d,
    loadGo C vh true entries ctx = .ok out →
    ctx.docId = some d → 2 ≤ ctx.index →
    authKeysFor ctx.doc d = .ok ctx.prevAuthKeys →
    (∀ e ∈ out, objGet e.2.2 "id" = some (.str d)) ∧
      proofChainOk C d false ctx.prevAuthKeys out
  | [], ctx, out, d, h, _, _, _ => by
    have := loadGo_nil h
    subst this
    exact ⟨by simp, trivial⟩
  | line :: rest, ctx, out, d, h, hdid, hidx, hkeys => by
    obtain ⟨ctx2, y, rout, hp, hr, hout⟩ := loadGo_cons h
    obtain ⟨lh, v, t, p, pr, doc, did, controllers, keys,
      hline, hpatch, hid, hhash, hprev, hsig1, hsig0, hy, hctx2⟩ := processLine_ok hp
    subst hout
    have hne1 : ctx.index ≠ 1 := by omega
    have hdd : did = d := by
      have := hprev hne1
      rw [hdid] at this
      injection this with hh
      exact hh.symm
    subst hdd
    obtain ⟨hak, hcp⟩ := hsig1 rfl
    rw [if_neg hne1] at hcp
    have hctx2did : ctx2.docId = some did := by rw [hctx2]
    have hctx2idx : 2 ≤ ctx2.index := by
      have : ctx2.index = ctx.index + 1 := by rw [hctx2]
      omega
    have hctx2keys : authKeysFor ctx2.doc did = .ok ctx2.prevAuthKeys := by
      have h1 : ctx2.doc = doc := by rw [hctx2]
      have h2 : ctx2.prevAuthKeys = keys := by rw [hctx2]
      rw [h1, h2]
      exact hak
    obtain ⟨hids, hchain⟩ := loadGo_c3 rest ctx2 rout did hr hctx2did hctx2idx hctx2keys
    have hydoc : y.2.2 = doc := by rw [hy]
    constructor
    · intro e he
      rcases List.mem_cons.mp he with he1 | he2
      · rw [he1, hydoc]
        exact hid
      · exact hids e he2
    · refine ⟨keys, ?_, ?_, ?_⟩
      · rw [hydoc]
        exact hak
      · rw [hydoc]
        exact hcp
      · have h2 : ctx2.prevAuthKeys = keys := by rw [hctx2]
        rw [← h2]
        exact hchain

theorem load_log_proof_policy {C : Crypto} {lines : List Json} {vh : Bool}
    {out : List (Nat × Json × Json)} (h : load_log C lines vh true = .ok out) :
    ∃ d, (∀ e ∈ out, objGet e.2.2 "id" = some (.str d)) ∧
      proofChainOk C d true [] out := by
  obtain ⟨header, entries, hl, hgo⟩ := load_log_ok_inv h
  match entries, hgo with
  | [], hgo => 
    have := loadGo_nil hgo
    subst this
    exact ⟨"", by simp, trivial⟩
  | line :: rest, hgo =>
    obtain ⟨ctx2, y, rout, hp, hr, hout⟩ := loadGo_cons hgo
    obtain ⟨lh, v, t, p, pr, doc, did, controllers, keys,
      hline, hpatch, hid, hhash, hprev, hsig1, hsig0, hy, hctx2⟩ := processLine_ok hp
    subst hout
    have hidx1 : initialLoadCtx.index = 1 := rfl
    obtain ⟨hak, hcp⟩ := hsig1 rfl
    rw [hidx1, if_pos rfl] at hcp
    have hctx2did : ctx2.docId = some did := by rw [hctx2]
    have hctx2idx : 2 ≤ ctx2.index := by
      have : ctx2.index = initialLoadCtx.index + 1 := by rw [hctx2]
      omega
    have hctx2keys : authKeysFor ctx2.doc did = .ok ctx2.prevAuthKeys := by
      have h1 : ctx2.doc = doc := by rw [hctx2]
      have h2 : ctx2.prevAuthKeys = keys := by rw [hctx2]
      rw [h1, h2]
      exact hak
    obtain ⟨hids, hchain⟩ := loadGo_c3 rest ctx2 rout did hr hctx2did hctx2idx hctx2keys
    have hydoc : y.2.2 = doc := by rw [hy]
    refine ⟨did, ?_, ?_⟩
    · intro e he
      rcases List.mem_cons.mp he with he1 | he2
      · rw [he1, hydoc]
        exact hid
      · exact hids e he2
    · refine ⟨keys, ?_, ?_, ?_⟩
      · rw [hydoc]
        exact hak
      · rw [hydoc]
        simp only [if_pos]
        exact hcp
      · have h2 : ctx2.prevAuthKeys = keys := by rw [hctx2]
        rw [← h2]
        exact hchain

theorem processLine_nosig {C vh ctx line} :
    processLine C vh false ctx line = processLineNoSig vh ctx line := rfl

theorem loadGo_nosig {C vh} : ∀ (entries : List Json) (ctx : LoadCtx),
    loadGo C vh false entries ctx = loadGoNoSig vh entries ctx
  | [], _ => rfl
  | line :: rest, ctx => by
    unfold loadGo loadGoNoSig
    rw [processLine_nosig]
    cases hp : processLineNoSig vh ctx line with
    | error e => simp [Bind.bind, Except.bind]
    | ok r =>
      simp only [Bind.bind, Except.bind]
      rw [loadGo_nosig rest r.1]

theorem load_log_nosig_eq (C : Crypto) (lines : List Json) (vh : Bool) :
    load_log C lines vh false = load_log_nosig lines vh := by
  cases lines with
  | nil => rfl
  | cons header entries =>
    simp only [load_log, load_log_nosig]
    split
    · simp only [loadGo_nosig]
    · rfl

theorem iterGo_vid {vid : Int} {vsh : Option VerifyStateHook} :
    ∀ (lines : List Json) (prev : Option DocumentState) (s : DocumentState)
      (acc : List DocumentState) (out : List DocumentState),
    iterGo (some vid) none vsh lines prev (some s) acc = .ok out →
    ∃ tail last, out = acc ++ tail ∧ tail ≠ [] ∧ out.getLast? = some last ∧
      (last.version_id = vid ∨ tail.length = lines.length + 1)
  | [], prev, s, acc, out, h => by
    unfold iterGo at h
    simp only [ebind_ok] at h
    obtain ⟨u1, h1, h⟩ := h
    obtain ⟨u2, h2, h⟩ := h
    cases u1
    cases u2
    simp only [Except.ok.injEq] at h
    subst h
    exact ⟨[s], s, rfl, by simp, by simp, Or.inr (by simp)⟩
  | l :: rest, prev, s, acc, out, h => by
    unfold iterGo at h
    simp only [ebind_ok] at h
    obtain ⟨ns, hns, h⟩ := h
    obtain ⟨u1, h1, h⟩ := h
    obtain ⟨u2, h2, h⟩ := h
    cases u1
    cases u2
    split at h
    · rename_i hc
      simp only [Bool.false_or, decide_eq_true_eq] at hc
      simp only [Except.ok.injEq] at h
      subst h
      exact ⟨[s], s, rfl, by simp, by simp, Or.inl hc⟩
    · rename_i hc
      obtain ⟨tail, last, hout, hne, hlast, hd⟩ := iterGo_vid rest (some s) ns (acc ++ [s]) out h
      refine ⟨s :: tail, last, by rw [hout]; simp, by simp, hlast, ?_⟩
      rcases hd with hd1 | hd2
      · exact Or.inl hd1
      · refine Or.inr ?_
        simp only [List.length_cons, hd2]

theorem iter_history_vid {lines : List Json} {vid : Int} {vsh : Option VerifyStateHook}
    {out : List DocumentState} (h : iter_history lines (some vid) none vsh = .ok out) :
    ∃ last, out ≠ [] ∧ out.getLast? = some last ∧
      (last.version_id = vid ∨ out.length = lines.length) := by
  unfold iter_history at h
  cases lines with
  | nil =>
    unfold iterGo at h
    exact absurd h (by simp)
  | cons l rest =>
    unfold iterGo at h
    simp only [ebind_ok] at h
    obtain ⟨ns, hns, h⟩ := h
    split at h
    · exact absurd h (by simp)
    · obtain ⟨tail, last, hout, hne, hlast, hd⟩ := iterGo_vid rest none ns [] out h
      simp only [List.nil_append] at hout
      subst hout
      refine ⟨last, hne, hlast, ?_⟩
      rcases hd with hd1 | hd2
      · exact Or.inl hd1
      · exact Or.inr (by simp [hd2])

theorem iterGo_vt {T : String} {vsh : Option VerifyStateHook} :
    ∀ (lines : List Json) (prev : Option DocumentState) (s : DocumentState)
      (acc : List DocumentState) (out : List DocumentState),
    iterGo none (some T) vsh lines prev (some s) acc = .ok out →
    strLt T s.timestamp = false →
    (∀ x ∈ acc, strLt T x.timestamp = false) →
    ∃ tail, out = acc ++ tail ∧ tail ≠ [] ∧ (∀ x ∈ out, strLt T x.timestamp = false) ∧
      (lines.drop (tail.length - 1) = [] ∨
        ∃ l2 rest2, lines.drop (tail.length - 1) = l2 :: rest2 ∧
          ∃ ns, DocumentState.load_history_line l2 out.getLast? = .ok ns ∧
            strLt T ns.timestamp = true)
  | [], prev, s, acc, out, h, hs, hacc => by
    unfold iterGo at h
    simp only [ebind_ok] at h
    obtain ⟨u1, h1, h⟩ := h
    obtain ⟨u2, h2, h⟩ := h
    cases u1
    cases u2
    simp only [Except.ok.injEq] at h
    subst h
    refine ⟨[s], rfl, by simp, ?_, Or.inl (by simp)⟩
    intro x hx
    rcases List.mem_append.mp hx with hx1 | hx2
    · exact hacc x hx1
    · simp only [List.mem_singleton] at hx2
      rw [hx2]
      exact hs
  | l :: rest, prev, s, acc, out, h, hs, hacc => by
    unfold iterGo at h
    simp only [ebind_ok] at h
    obtain ⟨ns, hns, h⟩ := h
    obtain ⟨u1, h1, h⟩ := h
    obtain ⟨u2, h2, h⟩ := h
    cases u1
    cases u2
    split at h
    · rename_i hc
      simp only [Bool.or_false] at hc
      simp only [Except.ok.injEq] at h
      subst h
      refine ⟨[s], rfl, by simp, ?_, ?_⟩
      · intro x hx
        rcases List.mem_append.mp hx with hx1 | hx2
        · exact hacc x hx1
        · simp only [List.mem_singleton] at hx2
          rw [hx2]
          exact hs
      · refine Or.inr ⟨l, rest, by simp, ns, ?_, hc⟩
        rw [show (acc ++ [s]).getLast? = some s by simp]
        exact hns
    · rename_i hc
      simp only [Bool.or_false, Bool.not_eq_true] at hc
      have hacc2 : ∀ x ∈ acc ++ [s], strLt T x.timestamp = false := by
        intro x hx
        rcases List.mem_append.mp hx with hx1 | hx2
        · exact hacc x hx1
        · simp only [List.mem_singleton] at hx2
          rw [hx2]
          exact hs
      obtain ⟨tail, hout, hne, hall, hmax⟩ := iterGo_vt rest (some s) ns (acc ++ [s]) out h hc hacc2
      rcases tail with _ | ⟨t0, ts⟩
      · exact absurd rfl hne
      · refine ⟨s :: t0 :: ts, by rw [hout]; simp, by simp, hall, ?_⟩
        have hd : (l :: rest).drop ((s :: t0 :: ts).length - 1) = rest.drop ((t0 :: ts).length - 1) := by
          simp only [List.length_cons]
          rfl
        rw [hd]
        exact hmax

theorem iter_history_vt {lines : List Json} {T : String} {vsh : Option VerifyStateHook}
    {out : List DocumentState} (h : iter_history lines none (some T) vsh = .ok out) :
    out ≠ [] ∧ (∀ x ∈ out, strLt T x.timestamp = false) ∧
      (lines.drop out.length = [] ∨
        ∃ l2 rest2, lines.drop out.length = l2 :: rest2 ∧
          ∃ ns, DocumentState.load_history_line l2 out.getLast? = .ok ns ∧
            strLt T ns.timestamp = true) := by
  unfold iter_history at h
  cases lines with
  | nil =>
    unfold iterGo at h
    exact absurd h (by simp)
  | cons l rest =>
    unfold iterGo at h
    simp only [ebind_ok] at h
    obtain ⟨ns, hns, h⟩ := h
    split at h
    · exact absurd h (by simp)
    · rename_i hc
      simp only [Bool.not_eq_true] at hc
      obtain ⟨tail, hout, hne, hall, hmax⟩ := iterGo_vt rest none ns [] out h hc (by simp)
      simp only [List.nil_append] at hout
      rcases tail with _ | ⟨t0, ts⟩
      · exact absurd rfl hne
      · subst hout
        refine ⟨by simp, hall, ?_⟩
        have hd : (l :: rest).drop (t0 :: ts).length = rest.drop ((t0 :: ts).length - 1) := by
          simp only [List.length_cons]
          rfl
        rw [hd]
        exact hmax

theorem sha256_length (msg : List Nat) : (sha256 msg).length = 32 := by
  unfold sha256 wordBytes
  simp

theorem bytesBits_length : ∀ bs : List Nat, (bytesBits bs).length = 8 * bs.length
  | [] => by simp [bytesBits]
  | b :: bs => by
    simp [bytesBits, bitsOfByte, bytesBits_length bs]
    ring

theorem b32chars_length : ∀ bits : List Nat, (b32chars bits).length = (bits.length + 4) / 5
  | _ :: _ :: _ :: _ :: _ :: rest => by
    simp [b32chars, b32chars_length rest]
    omega
  | [] => by simp [b32chars]
  | [_] => by simp [b32chars]
  | [_, _] => by simp [b32chars]
  | [_, _, _] => by simp [b32chars]
  | [_, _, _, _] => by simp [b32chars]

theorem b32encode_length {bs : List Nat} (h : bs.length = 32) : (b32encode bs).length = 56 := by
  unfold b32encode
  simp [b32chars_length, bytesBits_length, h]

theorem mapLower_length : ∀ cs : List Char, (mapLower cs).length = cs.length
  | [] => rfl
  | c :: cs => by simp [mapLower, mapLower_length cs]

theorem scid_length (msg : List Nat) :
    (String.mk ((mapLower (b32encode (sha256 msg))).take 24)).length = 24 := by
  have h1 : (mapLower (b32encode (sha256 msg))).length = 56 := by
    rw [mapLower_length, b32encode_length (sha256_length msg)]
  simp [String.length, List.length_take, h1]

theorem update_scid_ok {document : Json} {sv : Option Int} {did : String}
    (h1 : objGet document "id" = some (.str did))
    (h2 : (splitOnChar (Char.ofNat 58) did).head? = some "did")
    (h3 : 4 ≤ (splitOnChar (Char.ofNat 58) did).length)
    (h4 : scidVerOf sv (((splitOnChar (Char.ofNat 58) did).getLast?).getD "") = 1)
    (h5 : asciiOnly (canonicalize document) = true) :
    update_scid document sv = .ok
      (sJoin ":" ((splitOnChar (Char.ofNat 58) did).dropLast ++
        [String.mk ((mapLower (b32encode (sha256 (utf8Bytes (sReplace (canonicalize document) did
          (sJoin ":" ((splitOnChar (Char.ofNat 58) did).dropLast ++ [PLACEHOLDER]))))))).take 24)]),
       jsonStrReplace did
        (sJoin ":" ((splitOnChar (Char.ofNat 58) did).dropLast ++
          [String.mk ((mapLower (b32encode (sha256 (utf8Bytes (sReplace (canonicalize document) did
            (sJoin ":" ((splitOnChar (Char.ofNat 58) did).dropLast ++ [PLACEHOLDER]))))))).take 24)]))
        document) := by
  have hc1 : ¬((splitOnChar (Char.ofNat 58) did).head? ≠ some "did" ∨
      (splitOnChar (Char.ofNat 58) did).length < 4) := by
    push_neg
    exact ⟨h2, by omega⟩
  unfold update_scid
  rw [h1]
  simp only [strField, Bind.bind, Except.bind, if_neg hc1]
  rw [if_neg (by simp [h4])]
  rw [if_neg (by simp [h5])]

theorem update_scid_no_id {document : Json} {sv : Option Int}
    (h : ∀ s, objGet document "id" ≠ some (.str s)) :
    update_scid document sv = .error "Missing document ID" := by
  unfold update_scid
  cases hj : objGet document "id" with
  | none => simp [strField, Bind.bind, Except.bind]
  | some j =>
    cases j with
    | str s => exact absurd hj (h s)
    | null => simp [strField, Bind.bind, Except.bind]
    | bool b => simp [strField, Bind.bind, Except.bind]
    | num n => simp [strField, Bind.bind, Except.bind]
    | arr xs => simp [strField, Bind.bind, Except.bind]
    | obj kvs => simp [strField, Bind.bind, Except.bind]

theorem update_scid_bad_id {document : Json} {sv : Option Int} {did : String}
    (h1 : objGet document "id" = some (.str did))
    (h2 : (splitOnChar (Char.ofNat 58) did).head? ≠ some "did" ∨
      (splitOnChar (Char.ofNat 58) did).length < 4) :
    update_scid document sv = .error "Invalid document ID" := by
  unfold update_scid
  rw [h1]
  simp only [strField, Bind.bind, Except.bind]
  rw [if_pos h2]

theorem natDigitsLE_go_zero (b : Nat) : ∀ fuel, natDigitsLE.go b fuel 0 = []
  | 0 => rfl
  | _ + 1 => by simp [natDigitsLE.go]

theorem natDigitsLE_go_ofDigits {b : Nat} (hb : 2 ≤ b) :
    ∀ fuel n, n ≤ fuel → ofDigitsLE b (natDigitsLE.go b fuel n) = n
  | 0, n, hle => by
    have hn : n = 0 := by omega
    subst hn
    simp [natDigitsLE_go_zero, ofDigitsLE]
  | fuel + 1, n, hle => by
    unfold natDigitsLE.go
    by_cases hn : n = 0
    · simp [hn, ofDigitsLE]
    · rw [if_neg hn]
      simp only [ofDigitsLE]
      have hdiv : n / b ≤ fuel := by
        have h2 := Nat.div_lt_self (Nat.pos_of_ne_zero hn) (by omega : 1 < b)
        omega
      rw [natDigitsLE_go_ofDigits hb fuel (n / b) hdiv]
      exact Nat.mod_add_div n b

theorem ofDigitsLE_pos {b : Nat} (hb : 1 ≤ b) :
    ∀ l : List Nat, l ≠ [] → l.getLast? ≠ some 0 → 0 < ofDigitsLE b l
  | [], hne, _ => absurd rfl hne
  | x :: rest, _, hlast => by
    rcases rest with _ | ⟨r0, rs⟩
    · simp only [List.getLast?_singleton, ne_eq, Option.some.injEq] at hlast
      simp [ofDigitsLE]
      omega
    · have hrec := ofDigitsLE_pos hb (r0 :: rs) (by simp) (by
        rw [List.getLast?_cons_cons] at hlast
        exact hlast)
      have h1 : 0 < b * ofDigitsLE b (r0 :: rs) := Nat.mul_pos (by omega) hrec
      show 0 < x + b * ofDigitsLE b (r0 :: rs)
      omega

theorem digits_ofDigits {b : Nat} (hb : 2 ≤ b) :
    ∀ (l : List Nat) (fuel : Nat), (∀ x ∈ l, x < b) → l.getLast? ≠ some 0 →
      ofDigitsLE b l ≤ fuel → natDigitsLE.go b fuel (ofDigitsLE b l) = l
  | [], fuel, _, _, _ => by simp [ofDigitsLE, natDigitsLE_go_zero]
  | x :: rest, fuel, hlt, hlast, hle => by
    have hx : x < b := hlt x (by simp)
    rcases rest with _ | ⟨r0, rs⟩
    · simp only [List.getLast?_singleton, ne_eq, Option.some.injEq] at hlast
      have hn : ofDigitsLE b [x] = x := by simp [ofDigitsLE]
      rw [hn] at hle ⊢
      have hx0 : x ≠ 0 := hlast
      rcases fuel with _ | f
      · exact absurd (by omega : x = 0) hx0
      · unfold natDigitsLE.go
        rw [if_neg hx0]
        rw [Nat.mod_eq_of_lt hx, Nat.div_eq_of_lt hx, natDigitsLE_go_zero]
    · have hlast2 : (r0 :: rs).getLast? ≠ some 0 := by
        rw [List.getLast?_cons_cons] at hlast
        exact hlast
      have hm := ofDigitsLE_pos (by omega : 1 ≤ b) (r0 :: rs) (by simp) hlast2
      have hn : ofDigitsLE b (x :: r0 :: rs) = x + b * ofDigitsLE b (r0 :: rs) := rfl
      set m := ofDigitsLE b (r0 :: rs) with hmdef
      have hnpos : 0 < x + b * m := by
        have := Nat.mul_pos (by omega : 0 < b) hm
        omega
      rcases fuel with _ | f
      · rw [hn] at hle
        exact absurd hle (by omega)
      · unfold natDigitsLE.go
        rw [hn]
        rw [if_neg (by omega)]
        have hmod : (x + b * m) % b = x := by
          rw [Nat.add_mul_mod_self_left, Nat.mod_eq_of_lt hx]
        have hdiv : (x + b * m) / b = m := by
          rw [Nat.add_mul_div_left x m (by omega : 0 < b), Nat.div_eq_of_lt hx]
          omega
        rw [hmod, hdiv]
        have hmf : m ≤ f := by
          have : x + b * m ≤ f + 1 := by rw [hn] at hle; exact hle
          have h2m : 2 * m ≤ b * m := Nat.mul_le_mul_right m hb
          omega
        rw [digits_ofDigits hb (r0 :: rs) f (fun y hy => hlt y (by simp [hy])) hlast2
          (by rw [← hmdef]; exact hmf)]

theorem natDigitsLE_ofDigits {b : Nat} (hb : 2 ≤ b) (l : List Nat)
    (h1 : ∀ x ∈ l, x < b) (h2 : l.getLast? ≠ some 0) :
    natDigitsLE b (ofDigitsLE b l) = l := by
  unfold natDigitsLE
  exact digits_ofDigits hb l (ofDigitsLE b l) h1 h2 (Nat.le_refl _)

theorem natDigitsLE_go_lt {b : Nat} (hb : 0 < b) :
    ∀ fuel n x, x ∈ natDigitsLE.go b fuel n → x < b
  | 0, n, x, hx => absurd hx (by simp [natDigitsLE.go])
  | fuel + 1, n, x, hx => by
    unfold natDigitsLE.go at hx
    by_cases hn : n = 0
    · simp [hn] at hx
    · rw [if_neg hn] at hx
      rcases List.mem_cons.mp hx with hx1 | hx2
      · rw [hx1]
        exact Nat.mod_lt n hb
      · exact natDigitsLE_go_lt hb fuel (n / b) x hx2

theorem natDigitsLE_go_ne_nil {b : Nat} : ∀ {fuel n : Nat}, n ≠ 0 → n ≤ fuel →
    natDigitsLE.go b fuel n ≠ []
  | 0, n, hn, hle => absurd (by omega) hn
  | fuel + 1, n, hn, _ => by
    unfold natDigitsLE.go
    rw [if_neg hn]
    simp

theorem natDigitsLE_go_last {b : Nat} (hb : 2 ≤ b) :
    ∀ fuel n, n ≤ fuel → (natDigitsLE.go b fuel n).getLast? ≠ some 0
  | 0, n, hle => by
    have : n = 0 := by omega
    subst this
    simp [natDigitsLE_go_zero]
  | fuel + 1, n, hle => by
    unfold natDigitsLE.go
    by_cases hn : n = 0
    · simp [hn]
    · rw [if_neg hn]
      by_cases hq : n / b = 0
      · rw [hq, natDigitsLE_go_zero]
        simp only [List.getLast?_singleton, ne_eq, Option.some.injEq]
        have : n < b := (Nat.div_eq_zero_iff (by omega)).mp hq
        rw [Nat.mod_eq_of_lt this]
        exact hn
      · have hdle : n / b ≤ fuel := by
          have := Nat.div_lt_self (Nat.pos_of_ne_zero hn) (by omega : 1 < b)
          omega
        have hne := natDigitsLE_go_ne_nil (b := b) hq hdle
        rcases hgo : natDigitsLE.go b fuel (n / b) with _ | ⟨g0, gs⟩
        · exact absurd hgo hne
        · rw [List.getLast?_cons_cons]
          rw [← hgo]
          exact natDigitsLE_go_last hb fuel (n / b) hdle

theorem b58charVal_digitChar : ∀ d, d < 58 → b58charVal (b58digitChar d) = some d := by decide

theorem b58digitChar_ne_one : ∀ d, d < 58 → d ≠ 0 → b58digitChar d ≠ Char.ofNat 49 := by decide

theorem b58vals_mapB58 : ∀ ds : List Nat, (∀ d ∈ ds, d < 58) → b58vals (mapB58 ds) = some ds
  | [], _ => rfl
  | d :: ds, h => by
    simp only [mapB58, b58vals]
    rw [b58charVal_digitChar d (h d (by simp)), b58vals_mapB58 ds (fun x hx => h x (by simp [hx]))]

theorem ofDigitsLE_replicate_zero (b : Nat) : ∀ z, ofDigitsLE b (List.replicate z 0) = 0
  | 0 => rfl
  | z + 1 => by simp [List.replicate, ofDigitsLE, ofDigitsLE_replicate_zero b z]

theorem ofDigitsLE_append_zeros (b : Nat) :
    ∀ (l : List Nat) (z : Nat), ofDigitsLE b (l ++ List.replicate z 0) = ofDigitsLE b l
  | [], z => by simp [ofDigitsLE, ofDigitsLE_replicate_zero]
  | x :: xs, z => by simp [ofDigitsLE, ofDigitsLE_append_zeros b xs z]

theorem lead_zeros_decomp : ∀ bs : List Nat,
    List.replicate (countLeadZeros bs) 0 ++ bs.drop (countLeadZeros bs) = bs
  | [] => rfl
  | x :: xs => by
    unfold countLeadZeros
    by_cases hx : x = 0
    · rw [if_pos hx]
      simp only [List.replicate, List.drop_succ_cons, List.cons_append, hx]
      rw [lead_zeros_decomp xs]
    · rw [if_neg hx]
      simp

theorem drop_lead_head : ∀ bs : List Nat, bs.drop (countLeadZeros bs) = [] ∨
    ∃ y ys, bs.drop (countLeadZeros bs) = y :: ys ∧ y ≠ 0
  | [] => Or.inl rfl
  | x :: xs => by
    unfold countLeadZeros
    by_cases hx : x = 0
    · rw [if_pos hx]
      simp only [List.drop_succ_cons]
      exact drop_lead_head xs
    · rw [if_neg hx]
      exact Or.inr ⟨x, xs, by simp, hx⟩

theorem countLeadOnes_prefix : ∀ (z : Nat) (cs : List Char),
    (∀ c0 cr, cs = c0 :: cr → c0 ≠ Char.ofNat 49) →
    countLeadOnes (List.replicate z (Char.ofNat 49) ++ cs) = z
  | 0, cs, h => by
    rcases cs with _ | ⟨c0, cr⟩
    · rfl
    · simp only [List.replicate, List.nil_append, countLeadOnes]
      rw [if_neg (h c0 cr rfl)]
  | z + 1, cs, h => by
    rw [List.replicate_succ, List.cons_append]
    show (if Char.ofNat 49 = Char.ofNat 49 then
      countLeadOnes (List.replicate z (Char.ofNat 49) ++ cs) + 1 else 0) = z + 1
    rw [if_pos rfl, countLeadOnes_prefix z cs h]

theorem countLeadOnes_replicate (z : Nat) :
    countLeadOnes (List.replicate z (Char.ofNat 49)) = z := by
  have := countLeadOnes_prefix z []
  simp only [List.append_nil] at this
  exact this (by intro c0 cr hc; exact absurd hc (by simp))

theorem multibase_roundtrip (bs : List Nat) (h : ∀ x ∈ bs, x < 256) :
    multibase_decode (multibase_encode bs) = some bs := by
  unfold multibase_encode multibase_decode
  show (if Char.ofNat 122 = Char.ofNat 122 then b58decode (b58encode bs) else none) = some bs
  rw [if_pos rfl]
  unfold b58encode b58decode
  have hval : beBytesToNat bs = ofDigitsLE 256 (bs.drop (countLeadZeros bs)).reverse := by
    unfold beBytesToNat
    conv_lhs => rw [← lead_zeros_decomp bs]
    rw [List.reverse_append, List.reverse_replicate, ofDigitsLE_append_zeros]
  rcases drop_lead_head bs with hstr | ⟨y, ys, hstr, hy⟩
  · have hz : beBytesToNat bs = 0 := by
      rw [hval, hstr]
      rfl
    rw [hz]
    unfold natDigitsLE
    rw [natDigitsLE_go_zero]
    simp only [List.reverse_nil, mapB58, List.append_nil]
    rw [countLeadOnes_replicate]
    rw [show List.drop (countLeadZeros bs) (List.replicate (countLeadZeros bs) (Char.ofNat 49)) =
        ([] : List Char) from List.drop_eq_nil_of_le (by simp)]
    simp only [b58vals, List.reverse_nil, ofDigitsLE]
    rw [natDigitsLE_go_zero]
    simp only [List.reverse_nil, List.append_nil, Option.some.injEq]
    conv_rhs => rw [← lead_zeros_decomp bs]
    rw [hstr]
    simp
  · have hlt58 : ∀ d ∈ natDigitsLE 58 (beBytesToNat bs), d < 58 := by
      intro d hd
      exact natDigitsLE_go_lt (by omega) _ _ d hd
    have hlast : (natDigitsLE 58 (beBytesToNat bs)).getLast? ≠ some 0 := by
      unfold natDigitsLE
      exact natDigitsLE_go_last (by omega) _ _ (Nat.le_refl _)
    have hdne : natDigitsLE 58 (beBytesToNat bs) ≠ [] := by
      have hpos : 0 < beBytesToNat bs := by
        rw [hval, hstr]
        refine ofDigitsLE_pos (by omega) _ (by simp) ?_
        rw [List.getLast?_reverse]
        simp only [List.head?_cons, ne_eq, Option.some.injEq]
        exact hy
      unfold natDigitsLE
      exact natDigitsLE_go_ne_nil (by omega) (Nat.le_refl _)
    rcases hdig : (natDigitsLE 58 (beBytesToNat bs)).reverse with _ | ⟨d0, ds⟩
    · exact absurd (by simpa using hdig) hdne
    · have hd0 : d0 ≠ 0 := by
        have hh : (natDigitsLE 58 (beBytesToNat bs)).getLast? = some d0 := by
          rw [← List.head?_reverse, hdig]
          rfl
        intro hc
        rw [hc] at hh
        exact hlast hh
      have hd0lt : d0 < 58 := by
        apply hlt58
        have hm : d0 ∈ (natDigitsLE 58 (beBytesToNat bs)).reverse := by
          rw [hdig]
          simp
        simpa using hm
      have hones : countLeadOnes (List.replicate (countLeadZeros bs) (Char.ofNat 49) ++
          mapB58 (d0 :: ds)) = countLeadZeros bs := by
        refine countLeadOnes_prefix _ _ ?_
        intro c0 cr hc
        simp only [mapB58] at hc
        injection hc with hc1 hc2
        rw [← hc1]
        exact b58digitChar_ne_one d0 hd0lt hd0
      have hdrop : List.drop (countLeadZeros bs)
          (List.replicate (countLeadZeros bs) (Char.ofNat 49) ++ mapB58 (d0 :: ds)) =
          mapB58 (d0 :: ds) := by
        have hdl := List.drop_left (List.replicate (countLeadZeros bs) (Char.ofNat 49))
          (mapB58 (d0 :: ds))
        simpa using hdl
      have hvals : b58vals (mapB58 (d0 :: ds)) = some (d0 :: ds) := by
        refine b58vals_mapB58 _ ?_
        intro x hx
        apply hlt58
        have hm : x ∈ (natDigitsLE 58 (beBytesToNat bs)).reverse := by
          rw [hdig]
          exact hx
        simpa using hm
      have hrev : (d0 :: ds).reverse = natDigitsLE 58 (beBytesToNat bs) := by
        rw [← hdig]
        simp
      have hof : ofDigitsLE 58 (natDigitsLE 58 (beBytesToNat bs)) = beBytesToNat bs := by
        unfold natDigitsLE
        exact natDigitsLE_go_ofDigits (by omega) _ _ (Nat.le_refl _)
      have hbytes : natDigitsLE.go 256 (beBytesToNat bs) (beBytesToNat bs) =
          (bs.drop (countLeadZeros bs)).reverse := by
        have h2 : natDigitsLE 256 (beBytesToNat bs) = (bs.drop (countLeadZeros bs)).reverse := by
          rw [hval]
          refine natDigitsLE_ofDigits (by omega) _ ?_ ?_
          · intro x hx
            apply h
            have hm := List.mem_reverse.mp hx
            exact List.mem_of_mem_drop hm
          · rw [List.getLast?_reverse, hstr]
            simp only [List.head?_cons, ne_eq, Option.some.injEq]
            exact hy
        unfold natDigitsLE at h2
        exact h2
      simp only [hones, hdrop, hvals]
      rw [hrev, hof]
      unfold natDigitsLE
      rw [hbytes]
      simp only [List.reverse_reverse, Option.some.injEq]
      exact lead_zeros_decomp bs

theorem verify_proof_ok {C : Crypto} {doc proof method : Json}
    (h : verify_proof C doc proof method = .ok ()) :
    objGet proof "type" = some (.str "DataIntegrityProof") ∧
    objGet proof "proofPurpose" = some (.str "authentication") ∧
    objGet proof "cryptosuite" = some (.str "eddsa-jcs-2022") ∧
    ∃ pkm mc pk d2 pvs proof2 sig,
      objGet method "publicKeyMultibase" = some (.str pkm) ∧
      multibase_decode pkm = some mc ∧
      multicodec_unwrap mc = some ("ed25519-pub", pk) ∧
      objDel doc "proof" = some d2 ∧
      objPop proof "proofValue" = some (.str pvs, proof2) ∧
      multibase_decode pvs = some sig ∧
      C.verify pk (sha256 (canonBytes d2) ++ sha256 (canonBytes proof2)) sig = true := by
  unfold verify_proof at h
  split at h
  · exact absurd h (by simp)
  · rename_i h1
    simp only [not_not] at h1
    split at h
    · exact absurd h (by simp)
    · rename_i h2
      simp only [not_not] at h2
      split at h
      · exact absurd h (by simp)
      · rename_i h3
        simp only [not_not] at h3
        simp only [ebind_ok] at h
        obtain ⟨pkm, hpkm, h⟩ := h
        obtain ⟨mc, hmc, h⟩ := h
        obtain ⟨cw, hcw, h⟩ := h
        split at h
        · exact absurd h (by simp)
        · rename_i h4
          simp only [not_not] at h4
          simp only [ebind_ok] at h
          obtain ⟨d2, hd2, h⟩ := h
          obtain ⟨pv, hpv, h⟩ := h
          obtain ⟨pvs, hpvs, h⟩ := h
          obtain ⟨sig, hsig, h⟩ := h
          refine ⟨h1, h2, h3, pkm, mc, cw.2, d2, pvs, pv.2, sig,
            strField_ok hpkm, liftOpt_ok hmc, ?_, liftOpt_ok hd2, ?_, liftOpt_ok hsig, ?_⟩
          · rw [liftOpt_ok hcw]
            rw [show cw = (cw.1, cw.2) from rfl, h4]
          · rw [liftOpt_ok hpv]
            rw [show pv = (pv.1, pv.2) from rfl, strVal_ok hpvs]
          · split at h
            · rename_i h5
              exact h5
            · exact absurd h (by simp)

theorem removeKeyKV_append_self : ∀ (kvs : List (String × Json)) (k : String) (v : Json),
    lookupKV kvs k = none → removeKeyKV (kvs ++ [(k, v)]) k = some kvs
  | [], k, v, _ => by simp [removeKeyKV]
  | (k1, v1) :: rest, k, v, h => by
    unfold lookupKV at h
    by_cases hk : k1 = k
    · rw [if_pos hk] at h
      exact absurd h (by simp)
    · rw [if_neg hk] at h
      simp only [List.cons_append, removeKeyKV, if_neg hk]
      show (match removeKeyKV (rest ++ [(k, v)]) k with
        | some r => some ((k1, v1) :: r)
        | none => none) = some ((k1, v1) :: rest)
      rw [removeKeyKV_append_self rest k v h]

theorem objDel_append (kvs : List (String × Json)) (k : String) (v : Json)
    (h : lookupKV kvs k = none) : objDel (.obj (kvs ++ [(k, v)])) k = some (.obj kvs) := by
  show (match removeKeyKV (kvs ++ [(k, v)]) k with
    | some r => some (Json.obj r)
    | none => none) = some (Json.obj kvs)
  rw [removeKeyKV_append_self kvs k v h]

theorem eddsa_sign_verify {C : Crypto} {kvs : List (String × Json)} {sk : List Nat}
    {did kid created challenge : String}
    (hid : lookupKV kvs "id" = some (.str did))
    (hnp : lookupKV kvs "proof" = none)
    (hpk : ∀ x ∈ C.pub sk, x < 256)
    (hsg : ∀ x ∈ C.sign sk (signInput (.obj kvs) did kid created challenge), x < 256)
    (hver : C.verify (C.pub sk) (signInput (.obj kvs) did kid created challenge)
      (C.sign sk (signInput (.obj kvs) did kid created challenge)) = true)
    {method : Json}
    (hm : objGet method "publicKeyMultibase" =
      some (.str (multibase_encode (multicodec_wrap "ed25519-pub" (C.pub sk))))) :
    eddsa_sign C (.obj kvs) sk kid created challenge = .ok (.obj (proofOptions did kid created
        challenge ++ [("proofValue", .str (multibase_encode (C.sign sk
        (signInput (.obj kvs) did kid created challenge))))])) ∧
      verify_proof C
        (.obj (kvs ++ [("proof", .obj (proofOptions did kid created challenge ++
          [("proofValue", .str (multibase_encode (C.sign sk
            (signInput (.obj kvs) did kid created challenge))))]))]))
        (.obj (proofOptions did kid created challenge ++ [("proofValue", .str (multibase_encode
          (C.sign sk (signInput (.obj kvs) did kid created challenge))))]))
        method = .ok () := by
  have hwrap : ∀ x ∈ multicodec_wrap "ed25519-pub" (C.pub sk), x < 256 := by
    intro x hx
    unfold multicodec_wrap at hx
    rw [if_pos rfl] at hx
    rcases List.mem_cons.mp hx with h1 | hx
    · omega
    rcases List.mem_cons.mp hx with h2 | hx
    · omega
    · exact hpk x hx
  constructor
  · unfold eddsa_sign
    rw [show objGet (Json.obj kvs) "id" = lookupKV kvs "id" from rfl, hid]
    simp only [strField, Bind.bind, Except.bind]
  · unfold verify_proof
    rw [if_neg (by
      simp only [ne_eq, not_not]
      rfl)]
    rw [if_neg (by
      simp only [ne_eq, not_not]
      rfl)]
    rw [if_neg (by
      simp only [ne_eq, not_not]
      rfl)]
    rw [hm]
    simp only [strField, Bind.bind, Except.bind]
    rw [multibase_roundtrip _ hwrap]
    simp only [liftOpt]
    rw [show multicodec_unwrap (multicodec_wrap "ed25519-pub" (C.pub sk)) =
      some ("ed25519-pub", C.pub sk) from by
        unfold multicodec_wrap multicodec_unwrap
        rw [if_pos rfl]]
    simp only [liftOpt]
    rw [if_neg (by simp)]
    rw [objDel_append kvs "proof" _ hnp]
    simp only [liftOpt]
    rw [show objPop (Json.obj (proofOptions did kid created challenge ++ [("proofValue",
        Json.str (multibase_encode (C.sign sk (signInput (Json.obj kvs) did kid created
        challenge))))])) "proofValue" = some (Json.str (multibase_encode (C.sign sk
        (signInput (Json.obj kvs) did kid created challenge))),
        Json.obj (proofOptions did kid created challenge)) from rfl]
    simp only [liftOpt, strVal, Bind.bind, Except.bind]
    rw [multibase_roundtrip _ hsg]
    simp only [liftOpt]
    rw [if_pos]
    exact hver

-- ## Claim theorems

/-- C1: For every history traversed with hash verification enabled, the
hash of each entry equals log_line_hash (that is, format_hash of sha256 of
the JCS form) of the previous entry hash (seeded from the base-protocol
hash for entry 1) and the entry components; by contraposition, a history
containing any entry whose stored log_hash differs from this recomputation
is not accepted (load_log fails). -/
theorem claim_C1 (C : Crypto) (lines : List Json) (vs : Bool)
    (out : List (Nat × Json × Json)) (h : load_log C lines true vs = .ok out) :
    chainOk (.str seedHash) (lines.drop 1) := by
  obtain ⟨header, entries, hl, hgo⟩ := load_log_ok_inv h
  rw [hl]
  exact loadGo_chain entries initialLoadCtx out hgo

theorem claim_C1_witness :
    load_log Cz histDesc true false = .ok [(1, .str hashA1, docA), (2, .str hashA2, docA2)] ∧
    chainOk (.str seedHash) (histDesc.drop 1) := by
  refine ⟨by decide, ?_⟩
  exact claim_C1 Cz histDesc false [(1, .str hashA1, docA), (2, .str hashA2, docA2)] (by decide)

/-- C2: The claim states that the log line's fifth element (the proofs list
the writer emits as a non-empty list) is checked during verification, with
missing or invalid proofs failing traversal.  The code does not do this:
load_log line 198 rebinds `proofs` to doc.get("proof", []), so the log-line
proofs element is never examined and a document without a proof member
passes signature verification with no proof checked at all.  Here a history
whose only entry has an empty log-line proofs list and a proof-less
document is accepted by load_log with both verify flags enabled, while the
writer (write_log_line) always emits a singleton proofs list. -/
theorem claim_C2 :
    load_log Cz histNoProof true true = .ok [(1, .str hashA1, docA)] ∧
    write_log_line Cz docA hashA1 2 tsA1 patchA2 [1] "key-1" "2024-01-01T00:00:00Z" =
      .ok (.arr [.str (log_line_hash (.str hashA1) (.num 2) (.str tsA1) patchA2), .num 2,
        .str tsA1, patchA2,
        .arr [.obj (proofOptions idA "key-1" "2024-01-01T00:00:00Z"
          (log_line_hash (.str hashA1) (.num 2) (.str tsA1) patchA2) ++
          [("proofValue", .str (multibase_encode []))])]]) := by
  constructor
  · decide
  · decide

/-- C3: For every history verified with signatures enabled, the proofs on
entry 1 are checked against the authentication key set of entry 1's own
document (the inception bootstrap) and the proofs on every later entry
against the authentication key set of the preceding entry; a proof whose
method does not resolve in that set makes checkProofs (and hence load_log)
fail, so acceptance implies the proofChainOk policy below. -/
theorem claim_C3 (C : Crypto) (lines : List Json) (vh : Bool)
    (out : List (Nat × Json × Json)) (h : load_log C lines vh true = .ok out) :
    ∃ d, (∀ e ∈ out, objGet e.2.2 "id" = some (.str d)) ∧
      proofChainOk C d true [] out :=
  load_log_proof_policy h

theorem claim_C3_witness :
    load_log Cz histSig true true = .ok [(1, .str hashS1, docS), (2, .str hashS2, docS2)] ∧
    (∃ d, (∀ e ∈ [(1, Json.str hashS1, docS), (2, Json.str hashS2, docS2)],
        objGet e.2.2 "id" = some (.str d)) ∧
      proofChainOk Cz d true [] [(1, .str hashS1, docS), (2, .str hashS2, docS2)]) := by
  refine ⟨by decide, ?_⟩
  exact claim_C3 Cz histSig true [(1, .str hashS1, docS), (2, .str hashS2, docS2)] (by decide)

/-- C4: The claim as stated is false: it omits the SCID version sniffing of
update_scid (manage.py lines 381-389), under which a document id with at
least four colon segments whose final segment begins with a digit other
than 1 makes the derivation fail.  Concretely, the 4-segment did below is
rejected even though the claim promises a derived SCID for it. -/
theorem claim_C4_counterexample :
    update_scid docV2 none = .error "Only SCID version 1 is supported" := by decide

/-- C4 (amended): provided the resolved SCID version is 1 (an explicit
scid_ver of 1, or a final id segment not beginning with another digit) and
the canonical form is ASCII, update_scid on a document whose id is a did:
string with at least four colon segments replaces the final segment with
the placeholder throughout the canonical form, hashes it with sha256,
produces the 24-character lowercase base32 SCID, and returns the document
with the id substituted; a non-string id fails with "Missing document ID"
and an id without the did prefix or with fewer than four segments fails
with "Invalid document ID". -/
theorem claim_C4 :
    (∀ (document : Json) (sv : Option Int) (did : String),
      objGet document "id" = some (.str did) →
      (splitOnChar (Char.ofNat 58) did).head? = some "did" →
      4 ≤ (splitOnChar (Char.ofNat 58) did).length →
      scidVerOf sv (((splitOnChar (Char.ofNat 58) did).getLast?).getD "") = 1 →
      asciiOnly (canonicalize document) = true →
      (String.mk ((mapLower (b32encode (sha256 (utf8Bytes (sReplace (canonicalize document) did
          (sJoin ":" ((splitOnChar (Char.ofNat 58) did).dropLast ++
            [PLACEHOLDER]))))))).take 24)).length = 24 ∧
      update_scid document sv = .ok
        (sJoin ":" ((splitOnChar (Char.ofNat 58) did).dropLast ++
          [String.mk ((mapLower (b32encode (sha256 (utf8Bytes (sReplace (canonicalize document)
            did (sJoin ":" ((splitOnChar (Char.ofNat 58) did).dropLast ++
              [PLACEHOLDER]))))))).take 24)]),
         jsonStrReplace did
          (sJoin ":" ((splitOnChar (Char.ofNat 58) did).dropLast ++
            [String.mk ((mapLower (b32encode (sha256 (utf8Bytes (sReplace (canonicalize document)
              did (sJoin ":" ((splitOnChar (Char.ofNat 58) did).dropLast ++
                [PLACEHOLDER]))))))).take 24)]))
          document)) ∧
    (∀ (document : Json) (sv : Option Int),
      (∀ s, objGet document "id" ≠ some (.str s)) →
      update_scid document sv = .error "Missing document ID") ∧
    (∀ (document : Json) (sv : Option Int) (did : String),
      objGet document "id" = some (.str did) →
      ((splitOnChar (Char.ofNat 58) did).head? ≠ some "did" ∨
        (splitOnChar (Char.ofNat 58) did).length < 4) →
      update_scid document sv = .error "Invalid document ID") := by
  refine ⟨?_, ?_, ?_⟩
  · intro document sv did h1 h2 h3 h4 h5
    exact ⟨scid_length _, update_scid_ok h1 h2 h3 h4 h5⟩
  · intro document sv h
    exact update_scid_no_id h
  · intro document sv did h1 h2
    exact update_scid_bad_id h1 h2

theorem claim_C4_witness :
    (objGet docA "id" = some (.str idA) ∧
      (splitOnChar (Char.ofNat 58) idA).head? = some "did" ∧
      4 ≤ (splitOnChar (Char.ofNat 58) idA).length ∧
      scidVerOf none (((splitOnChar (Char.ofNat 58) idA).getLast?).getD "") = 1 ∧
      asciiOnly (canonicalize docA) = true ∧
      (String.mk ((mapLower (b32encode (sha256 (utf8Bytes (sReplace (canonicalize docA) idA
          (sJoin ":" ((splitOnChar (Char.ofNat 58) idA).dropLast ++
            [PLACEHOLDER]))))))).take 24)).length = 24) ∧
    (∀ s, objGet (Json.arr []) "id" ≠ some (.str s)) ∧
    update_scid (Json.arr []) none = .error "Missing document ID" ∧
    objGet (Json.obj [("id", .str "did:webnext:x")]) "id" = some (.str "did:webnext:x") ∧
    update_scid (Json.obj [("id", .str "did:webnext:x")]) none =
      .error "Invalid document ID" := by
  refine ⟨⟨by decide, by decide, by decide, by decide, by decide, ?_⟩, ?_, ?_, by decide, ?_⟩
  · exact (claim_C4.1 docA none idA (by decide) (by decide) (by decide) (by decide) (by decide)).1
  · intro s
    exact fun hc => by simp [objGet] at hc
  · exact claim_C4.2.1 (Json.arr []) none (fun s hc => by simp [objGet] at hc)
  · exact claim_C4.2.2 (Json.obj [("id", .str "did:webnext:x")]) none "did:webnext:x"
      (by decide) (Or.inr (by decide))

/-- C5: The claim (SCID idempotence, asserted by the code itself at
inception, manage.py lines 64-66) is right and the code is wrong: when the
derived SCID begins with a base32 digit (2-7), re-running update_scid
sniffs that digit as a SCID version and aborts.  For the document below the
first derivation succeeds and yields a SCID starting with "4"; the second
run on its result errors instead of returning the same id. -/
theorem claim_C5 :
    update_scid docBsrc none = .ok (idB, docB) ∧
    update_scid docB none = .error "Only SCID version 1 is supported" := by
  constructor
  · decide
  · decide

/-- C6: The claim is false for the version_id cutoff: when the history ends
before reaching the requested version, iter_history returns the yielded
states normally instead of failing (the cutoff error of loader.py lines
77-82 is raised only when no state was yielded at all).  Below a valid
one-entry history is iterated with version_id 2: iteration succeeds and
the last yielded state has version 1. -/
theorem claim_C6_counterexample :
    iter_history [iline1] (some 2) none none = .ok [stateI1] ∧ stateI1.version_id ≠ 2 := by
  constructor
  · decide
  · decide

/-- C6 (amended): with a version_id cutoff k, the last yielded state is the
state at version k when the traversal reaches it, and otherwise the whole
history is yielded without error; with a version_time cutoff T, every
yielded state has timestamp at most T and iteration stops either at the end
of the history or at the first entry whose timestamp exceeds T (a
cutoff-specific error is raised only when no state at all can be yielded,
for example a version_time before the first entry). -/
theorem claim_C6 :
    (∀ (lines : List Json) (k : Int) (vsh : Option VerifyStateHook)
      (out : List DocumentState),
      iter_history lines (some k) none vsh = .ok out →
      ∃ last, out ≠ [] ∧ out.getLast? = some last ∧
        (last.version_id = k ∨ out.length = lines.length)) ∧
    (∀ (lines : List Json) (T : String) (vsh : Option VerifyStateHook)
      (out : List DocumentState),
      iter_history lines none (some T) vsh = .ok out →
      out ≠ [] ∧ (∀ x ∈ out, strLt T x.timestamp = false) ∧
        (lines.drop out.length = [] ∨
          ∃ l2 rest2, lines.drop out.length = l2 :: rest2 ∧
            ∃ ns, DocumentState.load_history_line l2 out.getLast? = .ok ns ∧
              strLt T ns.timestamp = true)) := by
  constructor
  · intro lines k vsh out h
    exact iter_history_vid h
  · intro lines T vsh out h
    exact iter_history_vt h

theorem claim_C6_witness :
    (iter_history [iline1, iline2] (some 1) none none = .ok [stateI1] ∧
      ∃ last, [stateI1] ≠ [] ∧ [stateI1].getLast? = some last ∧
        (last.version_id = 1 ∨ [stateI1].length = [iline1, iline2].length)) ∧
    (iter_history [iline1, iline2] none (some tsS1) none = .ok [stateI1] ∧
      [stateI1] ≠ [] ∧ (∀ x ∈ [stateI1], strLt tsS1 x.timestamp = false) ∧
        ([iline1, iline2].drop 1 = [] ∨
          ∃ l2 rest2, [iline1, iline2].drop 1 = l2 :: rest2 ∧
            ∃ ns, DocumentState.load_history_line l2 [stateI1].getLast? = .ok ns ∧
              strLt tsS1 ns.timestamp = true)) := by
  constructor
  · exact ⟨by decide, claim_C6.1 [iline1, iline2] 1 none [stateI1] (by decide)⟩
  · exact ⟨by decide, claim_C6.2 [iline1, iline2] tsS1 none [stateI1] (by decide)⟩

/-- C7: The claim is false: load_log never validates the recorded
version_id against the entry position (the value is only an input to the
chain hash), so a history whose first entry records version_id 7 is
accepted, with the yielded index still 1. -/
theorem claim_C7_counterexample :
    load_log Cz histV7 true false = .ok [(1, .str hashA7, docA)] ∧
    lineA7 = .arr [.str hashA7, .num 7, .str tsA1, patchA1, .arr []] := by
  constructor
  · decide
  · rfl

/-- C7 (amended): load_log does not check the recorded version_id; the
index it yields is purely positional, entry 1 is yielded with index 1 and
each subsequent entry with the next integer, whatever version_id values
the entries record. -/
theorem claim_C7 (C : Crypto) (lines : List Json) (vh vs : Bool)
    (out : List (Nat × Json × Json)) (h : load_log C lines vh vs = .ok out) :
    ∀ i e, out.get? i = some e → e.1 = i + 1 := by
  obtain ⟨header, entries, hl, hgo⟩ := load_log_ok_inv h
  intro i e he
  have := loadGo_idx entries initialLoadCtx out hgo i e he
  rw [this]
  show 1 + i = i + 1
  omega

theorem claim_C7_witness :
    load_log Cz histDesc true false = .ok [(1, .str hashA1, docA), (2, .str hashA2, docA2)] ∧
    (2, Json.str hashA2, docA2).1 = 1 + 1 := by
  refine ⟨by decide, ?_⟩
  exact claim_C7 Cz histDesc true false [(1, .str hashA1, docA), (2, .str hashA2, docA2)]
    (by decide) 1 (2, .str hashA2, docA2) (by decide)

/-- C8: The claim is false: load_log performs no comparison of consecutive
timestamps (they enter only the chain hash), so the hash-consistent
history histDesc, whose second timestamp strictly precedes its first, is
accepted in full instead of failing. -/
theorem claim_C8_counterexample :
    load_log Cz histDesc true false = .ok [(1, .str hashA1, docA), (2, .str hashA2, docA2)] ∧
    strLt tsA2 tsA1 = true := by
  constructor
  · decide
  · decide

/-- C8 (amended): load_log enforces no timestamp monotonicity even with
both verification flags enabled: the same strictly-decreasing-timestamp
history is accepted with verify_hash and verify_signature both true. -/
theorem claim_C8 :
    strLt tsA2 tsA1 = true ∧
    load_log Cz histDesc true true = .ok [(1, .str hashA1, docA), (2, .str hashA2, docA2)] := by
  constructor
  · decide
  · decide

/-- C9: verify_proof accepts a proof only with type DataIntegrityProof,
cryptosuite eddsa-jcs-2022, proofPurpose authentication and an ed25519-pub
multicodec key, and then checks the signature over
sha256(JCS(document without proof)) concatenated with
sha256(JCS(proof without proofValue)); eddsa_sign signs exactly that
input, so a proof it creates verifies against the signer's public key
(stated for any Crypto whose verify accepts its own sign on that input,
with byte-valued key and signature material). -/
theorem claim_C9 :
    (∀ (C : Crypto) (doc proof method : Json),
      verify_proof C doc proof method = .ok () →
      objGet proof "type" = some (.str "DataIntegrityProof") ∧
      objGet proof "proofPurpose" = some (.str "authentication") ∧
      objGet proof "cryptosuite" = some (.str "eddsa-jcs-2022") ∧
      ∃ pkm mc pk d2 pvs proof2 sig,
        objGet method "publicKeyMultibase" = some (.str pkm) ∧
        multibase_decode pkm = some mc ∧
        multicodec_unwrap mc = some ("ed25519-pub", pk) ∧
        objDel doc "proof" = some d2 ∧
        objPop proof "proofValue" = some (.str pvs, proof2) ∧
        multibase_decode pvs = some sig ∧
        C.verify pk (sha256 (canonBytes d2) ++ sha256 (canonBytes proof2)) sig = true) ∧
    (∀ (C : Crypto) (kvs : List (String × Json)) (sk : List Nat)
      (did kid created challenge : String) (method : Json),
      lookupKV kvs "id" = some (.str did) →
      lookupKV kvs "proof" = none →
      (∀ x ∈ C.pub sk, x < 256) →
      (∀ x ∈ C.sign sk (signInput (.obj kvs) did kid created challenge), x < 256) →
      C.verify (C.pub sk) (signInput (.obj kvs) did kid created challenge)
        (C.sign sk (signInput (.obj kvs) did kid created challenge)) = true →
      objGet method "publicKeyMultibase" =
        some (.str (multibase_encode (multicodec_wrap "ed25519-pub" (C.pub sk)))) →
      eddsa_sign C (.obj kvs) sk kid created challenge = .ok (.obj (proofOptions did kid created
          challenge ++ [("proofValue", .str (multibase_encode (C.sign sk
          (signInput (.obj kvs) did kid created challenge))))])) ∧
        verify_proof C
          (.obj (kvs ++ [("proof", .obj (proofOptions did kid created challenge ++
            [("proofValue", .str (multibase_encode (C.sign sk
              (signInput (.obj kvs) did kid created challenge))))]))]))
          (.obj (proofOptions did kid created challenge ++ [("proofValue", .str (multibase_encode
            (C.sign sk (signInput (.obj kvs) did kid created challenge))))]))
          method = .ok ()) := by
  constructor
  · intro C doc proof method h
    exact verify_proof_ok h
  · intro C kvs sk did kid created challenge method h1 h2 h3 h4 h5 h6
    exact eddsa_sign_verify h1 h2 h3 h4 h5 h6

theorem claim_C9_witness :
    (lookupKV [("id", Json.str "d")] "id" = some (.str "d") ∧
      lookupKV [("id", Json.str "d")] "proof" = none ∧
      (∀ x ∈ Cw.pub [5, 6], x < 256) ∧
      (∀ x ∈ Cw.sign [5, 6] (signInput (.obj [("id", Json.str "d")]) "d" "k1" "t0" "c0"), x < 256) ∧
      Cw.verify (Cw.pub [5, 6]) (signInput (.obj [("id", Json.str "d")]) "d" "k1" "t0" "c0")
        (Cw.sign [5, 6] (signInput (.obj [("id", Json.str "d")]) "d" "k1" "t0" "c0")) = true) ∧
    (eddsa_sign Cw (.obj [("id", Json.str "d")]) [5, 6] "k1" "t0" "c0" =
      .ok (.obj (proofOptions "d" "k1" "t0" "c0" ++ [("proofValue", .str (multibase_encode
        (Cw.sign [5, 6] (signInput (.obj [("id", Json.str "d")]) "d" "k1" "t0" "c0"))))])) ∧
      verify_proof Cw
        (.obj ([("id", Json.str "d")] ++ [("proof", .obj (proofOptions "d" "k1" "t0" "c0" ++
          [("proofValue", .str (multibase_encode (Cw.sign [5, 6]
            (signInput (.obj [("id", Json.str "d")]) "d" "k1" "t0" "c0"))))]))]))
        (.obj (proofOptions "d" "k1" "t0" "c0" ++ [("proofValue", .str (multibase_encode
          (Cw.sign [5, 6] (signInput (.obj [("id", Json.str "d")]) "d" "k1" "t0" "c0"))))]))
        (.obj [("publicKeyMultibase", .str (multibase_encode
          (multicodec_wrap "ed25519-pub" (Cw.pub [5, 6]))))]) = .ok ()) := by
  refine ⟨⟨by decide, by decide, by decide, by decide, by decide⟩, ?_⟩
  exact claim_C9.2 Cw [("id", Json.str "d")] [5, 6] "d" "k1" "t0" "c0"
    (.obj [("publicKeyMultibase", .str (multibase_encode
      (multicodec_wrap "ed25519-pub" (Cw.pub [5, 6]))))])
    (by decide) (by decide) (by decide) (by decide) (by decide) (by decide)

/-- C10: The claim is false in one respect: with verify_signature false,
authentication-key parsing, the DID-in-controllers check and proof
verification are indeed all skipped, but controller normalization still
runs, so an entry whose controller member is neither absent, null, a
string nor a list is rejected.  Below the second entry acquires the
integer controller 42 and the hash-consistent history fails with the
controller error despite verify_signature being false. -/
theorem claim_C10_counterexample :
    load_log Cz histBadCtl true false = .error "Invalid log: invalid controllers" := by decide

/-- C10 (amended): with verify_signature false, load_log coincides exactly
with load_log_nosig, the signature-free reading of the loader that keeps
parsing, patch application, hash checking, id/SCID validation and
controller normalization but contains no authentication parsing, no
DID-in-controllers check and no proof verification; in particular the
result never depends on the Crypto implementation. -/
theorem claim_C10 (C : Crypto) (lines : List Json) (vh : Bool) :
    load_log C lines vh false = load_log_nosig lines vh :=
  load_log_nosig_eq C lines vh
